import Mathlib

/-!
# pi-solar: getvictron.c and serial.c

A shallow embedding of the frame location, field decoding and unit conversion of
`getvictron.c`, and of the capture of `serial.c` (`poll_serial`, `get_serial`).

Conventions of the embedding.

* A C `char` is a natural number (its byte value). Memory holding characters is a
  `List Nat`. A C string is read from memory up to the first NUL byte; the end of the
  list counts as a terminator too.
* Pointers into `serbuf` are offsets (`Nat`); a NULL result is `none`.
* `struct fields bsolar[19]` is a function `Fin 19 → fields`. The members `code`,
  `lbl` and `val` hold the string stored in the member (the bytes before its NUL).
* `float base` holds the exact rational value; rounding to single precision is not
  modelled.
* The results of the system calls (`open`, `isatty`, `poll`, `read`) are inputs of the
  model of `get_serial`.
-/

namespace PiSolar

/-! ## C strings -/

/-- The bytes of a string literal. -/
def bytes (s : String) : List Nat := s.toList.map Char.toNat

/-- The C string starting at the beginning of `mem`: the bytes before the first NUL. -/
def cstr (mem : List Nat) : List Nat := mem.takeWhile (fun c => c != 0)

/-- C library `strlen`. -/
def strlen (mem : List Nat) : Nat := (cstr mem).length

/-- C library `strncmp(a, b, n) == 0`: the first `n` characters are compared, and the
comparison stops after a NUL character. Reading past the end of the list reads a NUL. -/
def strncmp_eq : List Nat → List Nat → Nat → Bool
  | _, _, 0 => true
  | a, b, n + 1 =>
    if a.headD 0 != b.headD 0 then false
    else if a.headD 0 == 0 then true
    else strncmp_eq a.tail b.tail n

/-! ## strstr_last (getvictron.c 81-100) -/

/-- The `while(strp != str1)` loop of `strstr_last`; `p` is the offset `strp - str1`.
The loop body is not run for offset 0. -/
def strstr_last_loop (str1 str2 : List Nat) (len2 : Nat) : Nat → Option Nat
  | 0 => none
  | p + 1 =>
    if (str1.drop (p + 1)).headD 0 == str2.headD 0
        && strncmp_eq (str1.drop (p + 1)) str2 len2 then
      some (p + 1)
    else
      strstr_last_loop str1 str2 len2 p

/-- The function `strstr_last(str1, str2)`: the offset of the returned pointer, `none`
for a NULL result. -/
def strstr_last (str1 str2 : List Nat) : Option Nat :=
  let len2 : Int := strlen str2
  if len2 = 0 then some 0
  else
    let len1 : Int := strlen str1
    if len1 - len2 ≤ 0 then none
    else strstr_last_loop str1 str2 (strlen str2) (len1 - len2).toNat

/-- The marker `marker` occurs in `buf` at offset `p`. -/
def occursAt (buf marker : List Nat) (p : Nat) : Prop :=
  (buf.drop p).take marker.length = marker

instance (buf marker : List Nat) (p : Nat) : Decidable (occursAt buf marker p) :=
  inferInstanceAs (Decidable ((buf.drop p).take marker.length = marker))

/-- The list holds no NUL byte. -/
def nulFree (s : List Nat) : Prop := ∀ c ∈ s, c ≠ 0

instance (s : List Nat) : Decidable (nulFree s) :=
  inferInstanceAs (Decidable (∀ c ∈ s, c ≠ 0))

/-- Array `startstring` of `main`: "PID" followed by a TAB. -/
def startstring : List Nat := [0x50, 0x49, 0x44, 0x09]

/-- Array `endstring` of `main`: "Checksum" followed by a TAB. -/
def endstring : List Nat := [0x43, 0x68, 0x65, 0x63, 0x6b, 0x73, 0x75, 0x6d, 0x09]

/-! ## C library number parsing -/

/-- C library `isspace` in the C locale. -/
def isspace (c : Nat) : Bool := c == 0x20 || (0x09 ≤ c && c ≤ 0x0d)

/-- The value of a character as a digit or letter, for `strtol`. -/
def digit_value (c : Nat) : Option Nat :=
  if 0x30 ≤ c ∧ c ≤ 0x39 then some (c - 0x30)
  else if 0x61 ≤ c ∧ c ≤ 0x7a then some (c - 0x61 + 10)
  else if 0x41 ≤ c ∧ c ≤ 0x5a then some (c - 0x41 + 10)
  else none

/-- The value of a character that is a digit of the given base. -/
def digit_in (base c : Nat) : Option Nat := (digit_value c).filter (fun d => d < base)

/-- The number formed by the leading digits of `s` in the given base, continuing from
`acc`; the first character that is no digit ends the number. -/
def strtol_digits (base : Nat) : List Nat → Nat → Nat
  | [], acc => acc
  | c :: s, acc =>
    match digit_in base c with
    | some d => strtol_digits base s (acc * base + d)
    | none => acc

/-- The string starts with `0x` or `0X` followed by a hexadecimal digit. -/
def has_hex_prefix (s : List Nat) : Bool :=
  match s with
  | 0x30 :: x :: d :: _ => (x == 0x78 || x == 0x58) && (digit_in 16 d).isSome
  | _ => false

/-- The largest value of the type `long`, taken as 64 bits wide. -/
def LONG_MAX : Int := 9223372036854775807

/-- The smallest value of the type `long`, taken as 64 bits wide. -/
def LONG_MIN : Int := -9223372036854775808

/-- The conversion of a `long` to `int`: the value modulo 2^32, in the range of `int`. -/
def int_of_long (x : Int) : Int := (x + 2147483648) % 4294967296 - 2147483648

/-- The integer denoted by the numeral at the start of `nptr`, the "correct value" of
ISO C 7.22.1.4: leading white space is skipped, then an optional sign, then the digits of
the base; base 0 takes the base from the prefix (`0x` hexadecimal, `0` octal, decimal
otherwise). A string without a number gives 0. -/
def strtol_value (nptr : List Nat) (base : Nat) : Int :=
  let s := (cstr nptr).dropWhile isspace
  let neg := s.head? == some 0x2d
  let s := if s.head? == some 0x2d || s.head? == some 0x2b then s.tail else s
  let n : Nat :=
    if (base = 0 ∨ base = 16) ∧ has_hex_prefix s = true then strtol_digits 16 (s.drop 2) 0
    else if base = 0 then
      (if s.head? = some 0x30 then strtol_digits 8 s 0 else strtol_digits 10 s 0)
    else strtol_digits base s 0
  if neg then -(n : Int) else (n : Int)

/-- C library `strtol(nptr, NULL, base)`: the denoted integer when it fits the type
`long`, and `LONG_MAX` or `LONG_MIN` when it lies above or below the range. -/
def strtol (nptr : List Nat) (base : Nat) : Int :=
  if LONG_MAX < strtol_value nptr base then LONG_MAX
  else if strtol_value nptr base < LONG_MIN then LONG_MIN
  else strtol_value nptr base

/-- C library `atol`: `strtol(nptr, NULL, 10)`. -/
def atol (nptr : List Nat) : Int := strtol nptr 10

/-- C library `atoi`: `(int) strtol(nptr, NULL, 10)`, the result of `strtol` converted to
`int`. -/
def atoi (nptr : List Nat) : Int := int_of_long (strtol nptr 10)

/-! ## The field table (getvictron.c 42-70) -/

/-- The `struct fields`: `code[9]`, `lbl[255]`, `val[255]` as the strings they hold, and
`base` as an exact rational. -/
structure fields where
  code : List Nat
  lbl : List Nat
  val : List Nat
  base : ℚ
  deriving DecidableEq

/-- An array of 19 `struct fields`. -/
abbrev Table := Fin 19 → fields

/-- The initializers of `bsolar[]`: code and label of the 19 entries. -/
def bsolar_init : List (String × String) :=
  [ ("V",        "Battery Voltage"),          --  0
    ("VPV",      "Panel Voltage"),            --  1
    ("PPV",      "Panel Power"),              --  2
    ("I",        "Battery Current"),          --  3
    ("IL",       "Load Current"),             --  4
    ("LOAD",     "Load Output State"),        --  5
    ("Relay",    "Relay State"),              --  6
    ("H19",      "Yield Total"),              --  7
    ("H20",      "Yield Today"),              --  8
    ("H21",      "Maximum Power Today"),      --  9
    ("H22",      "Yield Yesterday"),          -- 10
    ("H23",      "Maximum Power Yesterday"),  -- 11
    ("ERR",      "Error Code"),               -- 12
    ("CS",       "Operational State"),        -- 13
    ("FW",       "Firmware Version"),         -- 14
    ("PID",      "Type"),                     -- 15
    ("SER#",     "Serial"),                   -- 16
    ("HSDS",     "Day Sequence Number"),      -- 17
    ("Checksum", "Checksum") ]                -- 18

/-- The global `bsolar[]` at program start: `val` and `base` are not initialized in the
source and so are the empty string and 0. -/
def bsolar : Table := fun i =>
  { code := bytes (bsolar_init.getD i.val ("", "")).1,
    lbl := bytes (bsolar_init.getD i.val ("", "")).2,
    val := [],
    base := 0 }

/-! ## add_values and parse_block (getvictron.c 105-189) -/

/-- The function `add_values(key, value)` on the table `list`: every entry whose code
equals the string at `key` gets the string at `value` as its `val`. -/
def add_values (list : Table) (key value : List Nat) : Table := fun i =>
  if cstr key = (list i).code then { list i with val := cstr value } else list i

/-- The locals of `parse_block` and the table written by `add_values`. -/
structure scan where
  keyflag : Nat
  linepos : Nat
  key : List Nat
  value : List Nat
  list : Table

/-- The assignment `buf[i] = c` into a local array; `none` when `i` is out of bounds. -/
def poke (buf : List Nat) (i c : Nat) : Option (List Nat) :=
  if i < buf.length then some (buf.set i c) else none

/-- The branch of `parse_block` for the terminating NUL: the value is terminated, the
pair goes to `add_values`, the loop ends. -/
def parse_nul (s : scan) : Option scan :=
  (poke s.value s.linepos 0).map fun value =>
    { s with value := value, list := add_values s.list s.key value }

/-- The `for` loop of `parse_block` over the bytes of `block` from `bufpos` on. The loop
ends after the NUL byte. `none` stands for a write outside `key` or `value`. -/
def parse_loop : List Nat → scan → Option scan
  | [], s => parse_nul s
  | b :: block, s =>
    if b = 0x09 then
      (poke s.key s.linepos 0).bind fun key =>
        parse_loop block { s with key := key, keyflag := 1, linepos := 0 }
    else if b = 0x0d then
      (poke s.value s.linepos 0).bind fun value =>
        parse_loop block { s with value := value, keyflag := 0, linepos := 0,
                                  list := add_values s.list s.key value }
    else if b = 0x0a then parse_loop block s
    else if b = 0 then parse_nul s
    else if s.keyflag = 0 then
      (poke s.key s.linepos b).bind fun key =>
        parse_loop block { s with key := key, linepos := s.linepos + 1 }
    else if s.keyflag = 1 then
      (poke s.value s.linepos b).bind fun value =>
        parse_loop block { s with value := value, linepos := s.linepos + 1 }
    else parse_loop block s

/-- The function `parse_block(block)` on the table `list`. The arguments `key` and
`value` are the contents of the two local arrays on entry, which the source does not
initialize. -/
def parse_block (key value : List Nat) (list : Table) (block : List Nat) : Option Table :=
  (parse_loop block { keyflag := 0, linepos := 0, key := key, value := value,
                      list := list }).map scan.list

/-! ## convert_units (getvictron.c 195-316) -/

/-- The assignment `ptr->base = b` for `ptr = list+i`. -/
def set_base (list : Table) (i : Fin 19) (b : ℚ) : Table :=
  Function.update list i { list i with base := b }

/-- The call `strncpy(ptr->val, s, 255)` for `ptr = list+i`, with `s` shorter than 255. -/
def set_val (list : Table) (i : Fin 19) (s : List Nat) : Table :=
  Function.update list i { list i with val := s }

/-- The `switch(retcode)` of `convert_units`: the new operational state string, if any. -/
def cs_name (retcode : Int) : Option String :=
  match retcode with
  | 0 => some "Off"
  | 2 => some "Fault"
  | 3 => some "Bulk"
  | 4 => some "Absorption"
  | 5 => some "Float"
  | _ => none

/-- The `switch(strtol(ptr->val, NULL, 0))` of `convert_units`: the product name. -/
def pid_name (pid : Int) : String :=
  match pid with
  | 0x0300 => "BlueSolar MPPT 70/15"
  | 0xa040 => "BlueSolar MPPT 75/50"
  | 0xa041 => "BlueSolar MPPT 150/35"
  | 0xa042 => "BlueSolar MPPT 75/15"
  | 0xa043 => "BlueSolar MPPT 100/15"
  | 0xa044 => "BlueSolar MPPT 100/30"
  | 0xa045 => "BlueSolar MPPT 100/50"
  | 0xa046 => "BlueSolar MPPT 150/70"
  | 0xa047 => "BlueSolar MPPT 150/100"
  | 0xa048 => "BlueSolar MPPT 75/50 rev2"
  | 0xa049 => "BlueSolar MPPT 100/50 rev2"
  | 0xa04a => "BlueSolar MPPT 100/30 rev2"
  | 0xa04b => "BlueSolar MPPT 100/35 rev2"
  | 0xa04c => "BlueSolar MPPT 75/10"
  | 0xa04d => "BlueSolar MPPT 150/45"
  | 0xa04e => "BlueSolar MPPT 150/60"
  | 0xa04f => "BlueSolar MPPT 150/85"
  | 0xa050 => "SmartSolar MPPT 250/100"
  | 0xa051 => "SmartSolar MPPT 150/100"
  | 0xa052 => "SmartSolar MPPT 150/85"
  | 0xa053 => "SmartSolar MPPT 75/15"
  | 0xa054 => "SmartSolar MPPT 75/10"
  | 0xa055 => "SmartSolar MPPT 100/15"
  | 0xa056 => "SmartSolar MPPT 100/30"
  | 0xa057 => "SmartSolar MPPT 100/50"
  | 0xa058 => "SmartSolar MPPT 150/35"
  | 0xa059 => "SmartSolar MPPT 150/100 rev2"
  | 0xa05a => "SmartSolar MPPT 150/85 rev2"
  | 0xa05b => "SmartSolar MPPT 250/70 rev2"
  | 0xa05c => "SmartSolar MPPT 250/85"
  | 0xa05d => "SmartSolar MPPT 250/60"
  | 0xa05e => "SmartSolar MPPT 250/45"
  | 0xa05f => "SmartSolar MPPT 100/20"
  | _ => "*UNKNOWN*"

/-- The function `convert_units(list)`: the table after the call and the value left in
the global `retcode`. -/
def convert_units (list : Table) : Table × Int :=
  -- Battery Voltage (V) from mV to V
  let list := set_base list 0 (atol (list 0).val)
  let list := set_base list 0 ((list 0).base / 1000)
  -- Panel Voltage (VPV) from mV to V
  let list := set_base list 1 (atol (list 1).val)
  let list := set_base list 1 ((list 1).base / 1000)
  -- Panel Power (PPV)
  let list := set_base list 2 (atol (list 2).val)
  -- Battery Current (I) from mA to A
  let list := set_base list 3 (atol (list 3).val)
  let list := set_base list 3 ((list 3).base / 1000)
  -- Load Current (IL) from mA to A
  let list := set_base list 4 (atol (list 4).val)
  let list := set_base list 4 ((list 4).base / 1000)
  -- Yield Total (H19) from kWh to Wh
  let list := set_base list 7 (atol (list 7).val)
  let list := set_base list 7 ((list 7).base * 1000)
  -- Yield Today (H20) from kWh to Wh
  let list := set_base list 8 (atol (list 8).val)
  let list := set_base list 8 ((list 8).base * 1000)
  -- Yield Yesterday (H22) from kWh to Wh
  let list := set_base list 10 (atol (list 10).val)
  let list := set_base list 10 ((list 10).base * 1000)
  -- Operational State code (CS)
  let list := set_base list 13 (atol (list 13).val)
  let retcode := atoi (list 13).val
  let list :=
    match cs_name retcode with
    | some name => set_val list 13 (bytes name)
    | none => list
  -- Firmware Version (FW) from 130 to 1.30
  let list := set_base list 14 (atol (list 14).val)
  let list := set_base list 14 ((list 14).base / 100)
  -- Product ID (PID)
  let list := set_base list 15 (strtol (list 15).val 0)
  let list := set_val list 15 (bytes (pid_name (strtol (list 15).val 0)))
  (list, retcode)

/-- The two assignments `ptr->base = atol(ptr->val); ptr->base = ptr->base / d;` for
`ptr = list+i`, as one step. -/
def base_div (list : Table) (i : Fin 19) (d : ℚ) : Table :=
  set_base (set_base list i (atol (list i).val)) i
    ((set_base list i (atol (list i).val) i).base / d)

/-- The two assignments `ptr->base = atol(ptr->val); ptr->base = ptr->base * m;` for
`ptr = list+i`, as one step. -/
def base_mul (list : Table) (i : Fin 19) (m : ℚ) : Table :=
  set_base (set_base list i (atol (list i).val)) i
    ((set_base list i (atol (list i).val) i).base * m)

/-- The conversion of the operational state, as one step. -/
def convert_cs (list : Table) : Table :=
  match cs_name (atoi (set_base list 13 (atol (list 13).val) 13).val) with
  | some name => set_val (set_base list 13 (atol (list 13).val)) 13 (bytes name)
  | none => set_base list 13 (atol (list 13).val)

/-- The conversion of the product id, as one step. -/
def convert_pid (list : Table) : Table :=
  set_val (set_base list 15 (strtol (list 15).val 0)) 15
    (bytes (pid_name (strtol (set_base list 15 (strtol (list 15).val 0) 15).val 0)))

/-- The function `create_rrdstr(list, str)`: the six values printed after the time
stamp, in the order V, I, VPV, PPV, IL, CS. The time stamp and the formatting of the
numbers are not modelled. -/
def create_rrdstr (list : Table) : List ℚ :=
  [(list 0).base, (list 3).base, (list 1).base, (list 2).base, (list 4).base,
   (list 13).base]

/-! ## Frame location and decoding in main (getvictron.c 517-591) -/

/-- The frame found by `main`: `startpos`, `endpos`, and `serbuf` as it is when the
block is copied (cut by the NUL written in the correction, when that ran). -/
structure frame where
  startpos : Nat
  endpos : Nat
  serbuf : List Nat
  deriving DecidableEq

/-- Lines 522-556 of `main`: the search for the start and end marker in `serbuf`.
`none` stands for one of the three `exit(-1)`. -/
def main_locate (serbuf : List Nat) : Option frame :=
  match strstr_last serbuf startstring with
  | none => none
  | some startpos =>
    match strstr_last serbuf endstring with
    | none => none
    | some endpos =>
      if endpos < startpos then
        let serbuf := serbuf.set (endpos + 10) 0
        match strstr_last serbuf startstring with
        | none => none
        | some startpos => some { startpos := startpos, endpos := endpos, serbuf := serbuf }
      else
        some { startpos := startpos, endpos := endpos, serbuf := serbuf }

/-- C library `strncpy(dest, src, n)`: the `n` bytes written to `dest`. The string at
`src` is cut after `n` bytes or padded with NUL bytes up to `n`. -/
def strncpy (src : List Nat) (n : Nat) : List Nat :=
  (cstr src).take n ++ List.replicate (n - ((cstr src).take n).length) 0

/-- Line 564 of `main`: the content of `blockbuf` after
`strncpy(blockbuf, &serbuf[startpos], sizeof(blockbuf))`, for a string at `startpos` that
ends inside `serbuf`: the list `serbuf` holds the bytes up to the terminator, so that its
end stands for the NUL. `main` uses the copy only under the two tests that make this
reading right: the terminator of `serbuf` lies within its 512 bytes, and the string copied
is shorter than the 256 bytes of `blockbuf`. -/
def main_block (f : frame) : List Nat := strncpy (f.serbuf.drop f.startpos) 256

/-- What a run of `main` leaves: the argument of `exit`, and, when the run got past the
frame location, the table after `convert_units` and the values of the RRD string. -/
structure outcome where
  status : Int
  record : Option Table
  rrdstr : Option (List ℚ)

/-- The function `main` from line 522 on, for the content of `serbuf` left by
`get_serial` (whose return value `main` does not read) and the global table `list`,
in a run without the option `-o` (`write_html` is not modelled). `key` and `value` are
the initial contents of the locals of `parse_block`. `none` stands for an access outside
an array, after which the source does not fix what the program does: the copy reads
beyond `serbuf` when no NUL lies within its 512 bytes (a read of 512 bytes puts the NUL at
`serbuf[512]`), `parse_block` reads beyond `blockbuf` when 256 or more bytes were copied
(the copy then has no NUL), and `parse_block` may write outside `key` or `value`. -/
def main (key value : List Nat) (list : Table) (serbuf : List Nat) : Option outcome :=
  match main_locate serbuf with
  | none => some { status := -1, record := none, rrdstr := none }
  | some f =>
    if 512 ≤ strlen serbuf ∨ 256 ≤ strlen (f.serbuf.drop f.startpos) then none
    else
      (parse_block key value list (main_block f)).map fun list =>
        let r := convert_units list
        { status := r.2, record := some r.1, rrdstr := some (create_rrdstr r.1) }

/-! ## poll_serial and get_serial (serial.c 107-164) -/

/-- The results of the system calls made by one run of `get_serial`: the value returned
by `open`, whether `isatty(fd)` is non-zero, the value returned by `poll`, the bits
`POLLHUP` and `POLLRDNORM` of `revents`, and the outcome of `read(fd, serbuf, 512)`:
`none` for the return value -1, `some data` when the bytes `data` are stored (the first
512 of them at most) and their number is returned. -/
structure syscalls where
  fd : Int
  isatty : Bool
  poll : Int
  pollhup : Bool
  pollrdnorm : Bool
  read : Option (List Nat)

/-- What `poll_serial` leaves: its return value `readbytes`, the content of `serbuf`, and
the index of the assignment `serbuf[readbytes] = 0` when it is made. -/
structure polled where
  readbytes : Int
  serbuf : List Nat
  nulpos : Option Int

/-- The function `poll_serial(fd, serbuf)`. An assignment outside `serbuf` leaves the
list as it is; `nulpos` tells where it went. -/
def poll_serial (sys : syscalls) (serbuf : List Nat) : polled :=
  if sys.poll > 0 then
    if sys.pollrdnorm = true then
      match sys.read with
      | none => ⟨-1, serbuf, some (-1)⟩
      | some data =>
        ⟨((data.take 512).length : Int),
          ((data.take 512) ++ serbuf.drop (data.take 512).length).set (data.take 512).length 0,
          some ((data.take 512).length : Int)⟩
    else ⟨0, serbuf, none⟩
  else ⟨0, serbuf, none⟩

/-- What `get_serial` leaves: its return value, the content of `serbuf`, and the
descriptors that were opened and are not closed when it returns. -/
structure capture where
  ret : Int
  serbuf : List Nat
  open_fds : List Int

/-- The function `get_serial(device, serbuf, verbose)`. A value `fd ≥ 0` returned by
`open` is an open descriptor; `serial.c` holds no call of `close`, so it stays in
`open_fds` on every path. `config_serial` does not touch `serbuf` and its return value
is not read. -/
def get_serial (sys : syscalls) (serbuf : List Nat) : capture :=
  let open_fds := if 0 ≤ sys.fd then [sys.fd] else []
  if sys.fd = 0 then ⟨-1, serbuf, open_fds⟩
  else if sys.isatty = false then ⟨-1, serbuf, open_fds⟩
  else if (poll_serial sys serbuf).readbytes < 100 then
    ⟨-1, (poll_serial sys serbuf).serbuf, open_fds⟩
  else ⟨0, (poll_serial sys serbuf).serbuf, open_fds⟩

/-- The function `main` from line 517 on: `get_serial` fills the global `serbuf` (512 NUL
bytes at program start) and its return value is dropped; then `main` goes on with the
frame location on the table `bsolar`. -/
def main_run (sys : syscalls) (key value : List Nat) : Option outcome :=
  main key value bsolar (get_serial sys (List.replicate 512 0)).serbuf

/-! ## The loop of parse_block without the final NUL (getvictron.c 144-188) -/

/-- The iterations of the `for` loop of `parse_block` for the bytes before the NUL
terminator: the state in which the loop reaches the NUL byte (or the end of the list).
`parse_loop` is these iterations followed by `parse_nul` (see `parse_loop_eq_steps`). -/
def parse_steps : List Nat → scan → Option scan
  | [], s => some s
  | b :: block, s =>
    if b = 0x09 then
      (poke s.key s.linepos 0).bind fun key =>
        parse_steps block { s with key := key, keyflag := 1, linepos := 0 }
    else if b = 0x0d then
      (poke s.value s.linepos 0).bind fun value =>
        parse_steps block { s with value := value, keyflag := 0, linepos := 0,
                                   list := add_values s.list s.key value }
    else if b = 0x0a then parse_steps block s
    else if b = 0 then some s
    else if s.keyflag = 0 then
      (poke s.key s.linepos b).bind fun key =>
        parse_steps block { s with key := key, linepos := s.linepos + 1 }
    else if s.keyflag = 1 then
      (poke s.value s.linepos b).bind fun value =>
        parse_steps block { s with value := value, linepos := s.linepos + 1 }
    else parse_steps block s

/-! ## main of getspa.c (getspa.c 218-335) -/

/-- The inputs of `main` of getspa.c after `parseargs`: the local hour of the time stamp
(`calc_tm`), and the values left by `spa_calculate(&spa)`, whose source `spa.c` is not
among the sources: its return value and the hours of sunrise and sunset. -/
structure spa_run where
  hour : ℚ
  result : Int
  sunrise : ℚ
  sunset : ℚ

/-- The function `main` of getspa.c from line 229 on (after `parseargs`): the exit status
of the program. The value `result` of `spa_calculate` is only printed; `main` ends with
`return 0`, unless `-f` is given (`outflag == 1`) and `write_html` cannot open the file
and calls `exit(-1)`. -/
def getspa_main (run : spa_run) (outflag : Nat) (fopen_ok : Bool) : Int :=
  if outflag = 1 ∧ fopen_ok = false then -1 else 0

/-! ## The summation loop of momimax.c (momimax.c 214-235, 344-365) -/

/-- The statement `int days = ((tend - tstart) / 86400)-1;` of `year_datahtml` and
`month_datahtml` (the quotient is taken as fitting an `int`). -/
def days (tstart tend : Int) : Int := Int.tdiv (tend - tstart) 86400 - 1

/-- The bound `days*ds_cnt` of `for(j=0; j<(days*ds_cnt); j=j+ds_cnt)`. `ds_cnt` is an
`unsigned long` of `w` bits, so `days` is converted to `unsigned long` and the product is
taken modulo `2^w`. -/
def loop_bound (w : Nat) (tstart tend : Int) (ds_cnt : Nat) : Nat :=
  ((days tstart tend % (2 : Int) ^ w).toNat * ds_cnt) % 2 ^ w

/-! ## Inputs and notions used in the statements -/

/-- The block "V TAB 12000 CR LF" with its NUL terminator: the NUL is reached in state
Key. -/
def block_line : List Nat := bytes "V\t12000\r\n" ++ [0]

/-- The block "V TAB 12 TAB 34 CR LF I TAB 5" with its NUL terminator. -/
def block_two_tabs : List Nat := bytes "V\t12\t34\r\nI\t5" ++ [0]

/-- Spec side, for the product id: the digits of the given base at the start of `s`, as
numbers, most significant first. -/
def leading_digits (base : Nat) (s : List Nat) : List Nat :=
  (s.takeWhile (fun c => (digit_in base c).isSome)).filterMap (digit_in base)

/-- Spec side: the number written by a list of digits of the given base. -/
def digits_number (base : Nat) (ds : List Nat) : Nat :=
  ds.foldl (fun n d => n * base + d) 0

/-- Spec side: the raw string after its leading white space and one sign. -/
def numeral_body (s : List Nat) : List Nat :=
  if ((cstr s).dropWhile isspace).head? = some 0x2d ∨
      ((cstr s).dropWhile isspace).head? = some 0x2b then
    ((cstr s).dropWhile isspace).tail
  else (cstr s).dropWhile isspace

/-- Spec side: the product identifier that a raw string denotes: after white space and
sign, the digits are read in base 16 behind the prefix `0x` or `0X` (followed by a
hexadecimal digit), in base 8 behind another leading `0`, and in base 10 otherwise; a
leading minus sign negates the number. -/
def pid_number (s : List Nat) : Int :=
  let n : Nat :=
    if has_hex_prefix (numeral_body s) = true then
      digits_number 16 (leading_digits 16 ((numeral_body s).drop 2))
    else if (numeral_body s).head? = some 0x30 then
      digits_number 8 (leading_digits 8 (numeral_body s))
    else digits_number 10 (leading_digits 10 (numeral_body s))
  if ((cstr s).dropWhile isspace).head? = some 0x2d then -(n : Int) else (n : Int)

/-- The capture of the form E b1 X S Y E b2: an end marker with its checksum byte `b1`,
then a start marker and the second end marker with its checksum byte `b2`. -/
def capture_pair (b1 b2 : Nat) (X Y : List Nat) : List Nat :=
  endstring ++ [b1] ++ X ++ startstring ++ Y ++ endstring ++ [b2]

/-- The capture "x PID TAB", 260 bytes A, "Checksum TAB Z": 275 bytes, of which 274 follow
the start offset 1. -/
def capture_long : List Nat :=
  bytes "xPID\t" ++ List.replicate 260 0x41 ++ bytes "Checksum\tZ"

/-- System calls of a run in which the single read fills all 512 bytes of `serbuf`. -/
def sys_512 : syscalls := ⟨3, true, 1, false, true, some (List.replicate 512 0x41)⟩

/-- System calls of a run in which the single read fails with -1. -/
def sys_readerr : syscalls := ⟨3, true, 1, false, true, none⟩

/-- A night run of getspa: 2 o'clock, sunrise at 6, sunset at 18, no SPA error. -/
def spa_night : spa_run := ⟨2, 0, 6, 18⟩

/-- A run of getspa in which `spa_calculate` reports the error code 1. -/
def spa_error : spa_run := ⟨12, 1, 0, 0⟩

/-- A block with the codes PID, H21, H23 and Checksum:
"PID TAB 0xA042 CR LF H21 TAB 75 CR LF H23 TAB 75W CR LF Checksum TAB Z". -/
def lines_h21 : List (List Nat × List Nat) :=
  [(bytes "PID", bytes "0xA042"), (bytes "H21", bytes "75"), (bytes "H23", bytes "75W"),
   (bytes "Checksum", bytes "Z")]

/-- A block with the codes PID, V and Checksum, without CS:
"PID TAB 0xA042 CR LF V TAB 12000 CR LF Checksum TAB Z". -/
def lines_no_cs : List (List Nat × List Nat) :=
  [(bytes "PID", bytes "0xA042"), (bytes "V", bytes "12000"), (bytes "Checksum", bytes "Z")]

/-- The block `lines_no_cs` with the line "CS TAB 0" added before the Checksum line. -/
def lines_cs_zero : List (List Nat × List Nat) :=
  [(bytes "PID", bytes "0xA042"), (bytes "V", bytes "12000"), (bytes "CS", bytes "0"),
   (bytes "Checksum", bytes "Z")]

/-- Three lines ended by CR LF, the second with a code that is not in `bsolar`, and the
NUL terminator: "V TAB 12000 CR LF XX TAB 1 CR LF I TAB 250 CR LF NUL". -/
def block_unknown : List Nat := bytes "V\t12000\r\nXX\t1\r\nI\t250\r\n" ++ [0]

/-- A capture of 29 bytes that holds a complete frame:
"x PID TAB 0xA042 CR LF CS TAB 3 CR LF Checksum TAB Z". -/
def capture_cs : List Nat := bytes "xPID\t0xA042\r\nCS\t3\r\nChecksum\tZ"

/-- System calls of a run in which the device opens as a tty with descriptor 3 and the
single read gives the 29 bytes of `capture_cs`. -/
def sys_short : syscalls := ⟨3, true, 1, false, true, some capture_cs⟩

/-- A block with the codes PID, I and Checksum, without V, VPV, PPV, IL and CS:
"PID TAB 0xA042 CR LF I TAB 250 CR LF Checksum TAB Z". -/
def lines_only_i : List (List Nat × List Nat) :=
  [(bytes "PID", bytes "0xA042"), (bytes "I", bytes "250"), (bytes "Checksum", bytes "Z")]

/-- System calls of a run in which the device opens as a tty with descriptor 3 and the
single read gives 120 bytes. -/
def sys_full : syscalls := ⟨3, true, 1, false, true, some (List.replicate 120 0x41)⟩

/-- System calls of a run in which the device opens with descriptor 3 and is no tty. -/
def sys_notty : syscalls := ⟨3, false, 0, false, false, none⟩

/-- The value that a sequence of `add_values` leaves for the code `c`: the value of the
last line whose key is `c`, and `d` when there is none. -/
def last_value (lines : List (List Nat × List Nat)) (c d : List Nat) : List Nat :=
  lines.foldl (fun acc p => if cstr p.1 = c then cstr p.2 else acc) d

/-- The lines `k1 TAB v1 CR LF ... kn TAB vn CR LF`, each ended by CR LF. -/
def lines_crlf : List (List Nat × List Nat) → List Nat
  | [] => []
  | p :: lines => p.1 ++ 0x09 :: (p.2 ++ 0x0d :: 0x0a :: lines_crlf lines)

/-- The valid block that begins with the line `PID TAB v`, goes on with the lines `mid`,
each line ended by CR LF, and ends with `Checksum TAB` and the checksum byte `b`. -/
def valid_block (v : List Nat) (mid : List (List Nat × List Nat)) (b : Nat) : List Nat :=
  lines_crlf ((bytes "PID", v) :: mid) ++ (bytes "Checksum" ++ [0x09, b])

/-- The calls of `add_values` that `parse_block` makes for the end `Checksum TAB b NUL` of
a valid block, as pairs of key and value (see `parse_block_valid`). -/
def checksum_pairs (b : Nat) : List (List Nat × List Nat) :=
  if b = 0x09 then [([], [])]
  else if b = 0x0d then [(bytes "Checksum", []), (bytes "Checksum", [])]
  else if b = 0x0a ∨ b = 0 then [(bytes "Checksum", [])]
  else [(bytes "Checksum", [b])]

/-- The new `val` of the CS entry in `convert_units`. -/
def cs_val (val : List Nat) : List Nat :=
  if atoi val = 0 then bytes "Off"
  else if atoi val = 2 then bytes "Fault"
  else if atoi val = 3 then bytes "Bulk"
  else if atoi val = 4 then bytes "Absorption"
  else if atoi val = 5 then bytes "Float"
  else val

/-- The effect of `convert_units` on the entry with index `i` (see
`convert_units_apply`). -/
def conv_entry (i : Fin 19) (f : fields) : fields :=
  if i = 0 ∨ i = 1 ∨ i = 3 ∨ i = 4 then { f with base := (atol f.val : ℚ) / 1000 }
  else if i = 2 then { f with base := (atol f.val : ℚ) }
  else if i = 7 ∨ i = 8 ∨ i = 10 then { f with base := (atol f.val : ℚ) * 1000 }
  else if i = 13 then { f with base := (atol f.val : ℚ), val := cs_val f.val }
  else if i = 14 then { f with base := (atol f.val : ℚ) / 100 }
  else if i = 15 then
    { f with base := (strtol f.val 0 : ℚ), val := bytes (pid_name (strtol f.val 0)) }
  else f

/-- The indices of the codes without a rule in `convert_units`: LOAD, Relay, H21, H23,
ERR, SER#, HSDS and Checksum. -/
def passthrough : List (Fin 19) := [5, 6, 9, 11, 12, 16, 17, 18]

/-- The number of bytes that one run of `get_serial` stores in `serbuf`. -/
def bytes_captured (sys : syscalls) : Nat :=
  if sys.poll > 0 ∧ sys.pollrdnorm = true then
    match sys.read with
    | none => 0
    | some data => (data.take 512).length
  else 0

/-- A capture with a complete frame followed by a further line without start marker:
"CR LF PID TAB 0xA042 CR LF V TAB 12000 CR LF Checksum TAB Z CR LF V TAB 99". -/
def capture_trailing : List Nat :=
  bytes "\r\nPID\t0xA042\r\nV\t12000\r\nChecksum\tZ\r\nV\t99"

/-- The string holds none of the bytes TAB, CR, LF and NUL. -/
def clean (s : List Nat) : Prop := ∀ c ∈ s, c ≠ 0x09 ∧ c ≠ 0x0d ∧ c ≠ 0x0a ∧ c ≠ 0

instance (s : List Nat) : Decidable (clean s) :=
  inferInstanceAs (Decidable (∀ c ∈ s, c ≠ 0x09 ∧ c ≠ 0x0d ∧ c ≠ 0x0a ∧ c ≠ 0))

/-- The block `k1 TAB v1 CR LF k2 TAB v2 CR LF ... kn TAB vn` of the lines `(ki, vi)`;
the last line has no CR LF. -/
def block_of : List (List Nat × List Nat) → List Nat
  | [] => []
  | [p] => p.1 ++ 0x09 :: p.2
  | p :: q :: lines => p.1 ++ 0x09 :: (p.2 ++ 0x0d :: 0x0a :: block_of (q :: lines))

/-- The table after `add_values` for each line in turn. -/
def add_lines (list : Table) (lines : List (List Nat × List Nat)) : Table :=
  lines.foldl (fun t p => add_values t p.1 p.2) list

/-- Three lines of a block, with the code V on the first and the last. -/
def lines_twice : List (List Nat × List Nat) :=
  [(bytes "V", bytes "12000"), (bytes "CS", bytes "3"), (bytes "V", bytes "12560")]

/-- A capture that begins inside a block and ends inside the next one:
"x PID TAB A Checksum TAB Z PID TAB B". -/
def capture_wrapped : List Nat := bytes "xPID\tAChecksum\tZPID\tB"

/-! ## Facts about strstr_last -/

theorem cstr_of_nulFree {s : List Nat} (h : nulFree s) : cstr s = s := by
  induction s with
  | nil => rfl
  | cons a t ih =>
    have ha : a ≠ 0 := h a (by simp)
    have ht : nulFree t := fun c hc => h c (by simp [hc])
    simp [cstr, List.takeWhile_cons, ha] at ih ⊢
    exact ih ht

theorem strlen_of_nulFree {s : List Nat} (h : nulFree s) : strlen s = s.length := by
  simp [strlen, cstr_of_nulFree h]

theorem strlen_le_length (s : List Nat) : strlen s ≤ s.length := by
  unfold strlen cstr
  exact (List.takeWhile_sublist _).length_le

theorem strncmp_eq_iff (m : List Nat) (hm : nulFree m) (a : List Nat) :
    strncmp_eq a m m.length = true ↔ a.take m.length = m := by
  induction m generalizing a with
  | nil => simp [strncmp_eq]
  | cons y m ih =>
    have hy : y ≠ 0 := hm y (by simp)
    have hm2 : nulFree m := fun c hc => hm c (by simp [hc])
    cases a with
    | nil =>
      simp [strncmp_eq, hy]
      exact fun h => hy h.symm
    | cons x a =>
      by_cases hxy : x = y
      · subst hxy
        simp [strncmp_eq, hy, ih hm2 a]
      · simp [strncmp_eq, hxy]

theorem occursAt_head {s m : List Nat} {q : Nat} (hne : m ≠ []) (h : occursAt s m q) :
    (s.drop q).headD 0 = m.headD 0 := by
  unfold occursAt at h
  cases m with
  | nil => exact absurd rfl hne
  | cons y m =>
    cases hd : s.drop q with
    | nil => rw [hd] at h; simp at h
    | cons x r => rw [hd] at h; simp at h; simp [h.1]

theorem occursAt_le_length {s m : List Nat} {q : Nat} (h : occursAt s m q) :
    q + m.length ≤ s.length ∨ m = [] := by
  unfold occursAt at h
  by_cases hm : m = []
  · exact Or.inr hm
  · left
    have h2 := congrArg List.length h
    simp at h2
    have : 0 < m.length := List.length_pos.mpr hm
    omega

/-- The test made by the loop body of `strstr_last` at offset `q` is the occurrence of
the marker at `q`. -/
theorem strstr_hit_iff (s m : List Nat) (hm : nulFree m) (hne : m ≠ []) (q : Nat) :
    ((s.drop q).headD 0 == m.headD 0 && strncmp_eq (s.drop q) m m.length) = true
      ↔ occursAt s m q := by
  rw [Bool.and_eq_true, strncmp_eq_iff m hm]
  constructor
  · intro h; exact h.2
  · intro h
    refine ⟨?_, h⟩
    rw [occursAt_head hne h]; simp

theorem strstr_last_loop_some (s m : List Nat) (hm : nulFree m) (hne : m ≠ []) (n p : Nat) :
    strstr_last_loop s m m.length n = some p ↔
      (1 ≤ p ∧ p ≤ n ∧ occursAt s m p ∧ ∀ q, p < q → q ≤ n → ¬ occursAt s m q) := by
  induction n with
  | zero =>
    simp [strstr_last_loop]
    intro h1 h2; omega
  | succ n ih =>
    unfold strstr_last_loop
    by_cases hhit : occursAt s m (n + 1)
    · rw [if_pos ((strstr_hit_iff s m hm hne (n + 1)).mpr hhit)]
      constructor
      · intro h
        have hp : p = n + 1 := by simpa using h.symm
        subst hp
        exact ⟨by omega, le_refl _, hhit, fun q h1 h2 => by omega⟩
      · rintro ⟨h1, h2, h3, h4⟩
        by_cases hp : p = n + 1
        · rw [hp]
        · exact absurd hhit (h4 (n + 1) (by omega) (le_refl _))
    · rw [if_neg (fun h => hhit ((strstr_hit_iff s m hm hne (n + 1)).mp h)), ih]
      constructor
      · rintro ⟨h1, h2, h3, h4⟩
        refine ⟨h1, by omega, h3, fun q hq1 hq2 => ?_⟩
        by_cases hq : q = n + 1
        · rw [hq]; exact hhit
        · exact h4 q hq1 (by omega)
      · rintro ⟨h1, h2, h3, h4⟩
        have hp : p ≠ n + 1 := fun h => hhit (h ▸ h3)
        exact ⟨h1, by omega, h3, fun q hq1 hq2 => h4 q hq1 (by omega)⟩

theorem strstr_last_loop_none (s m : List Nat) (hm : nulFree m) (hne : m ≠ []) (n : Nat) :
    strstr_last_loop s m m.length n = none ↔ ∀ q, 1 ≤ q → q ≤ n → ¬ occursAt s m q := by
  induction n with
  | zero =>
    simp [strstr_last_loop]
    intro q h1 h2; omega
  | succ n ih =>
    unfold strstr_last_loop
    by_cases hhit : occursAt s m (n + 1)
    · rw [if_pos ((strstr_hit_iff s m hm hne (n + 1)).mpr hhit)]
      simp
      exact ⟨n + 1, by omega, le_refl _, hhit⟩
    · rw [if_neg (fun h => hhit ((strstr_hit_iff s m hm hne (n + 1)).mp h)), ih]
      constructor
      · intro h q hq1 hq2
        by_cases hq : q = n + 1
        · rw [hq]; exact hhit
        · exact h q hq1 (by omega)
      · intro h q hq1 hq2
        exact h q hq1 (by omega)

/-- The result of `strstr_last` for a marker without NUL: the greatest offset from 1 on at
which the marker lies inside the string. -/
theorem strstr_last_some (s m : List Nat) (hm : nulFree m) (hne : m ≠ []) (p : Nat) :
    strstr_last s m = some p ↔
      (1 ≤ p ∧ p + m.length ≤ strlen s ∧ occursAt s m p ∧
        ∀ q, p < q → q + m.length ≤ strlen s → ¬ occursAt s m q) := by
  have hlen : 0 < m.length := List.length_pos.mpr hne
  unfold strstr_last
  simp only [strlen_of_nulFree hm]
  rw [if_neg (by omega)]
  by_cases hle : (strlen s : Int) - (m.length : Int) ≤ 0
  · rw [if_pos hle]
    constructor
    · intro h; cases h
    · rintro ⟨h1, h2, -, -⟩; omega
  · rw [if_neg hle, strstr_last_loop_some s m hm hne]
    have e : ((strlen s : Int) - (m.length : Int)).toNat = strlen s - m.length := by omega
    rw [e]
    constructor
    · rintro ⟨h1, h2, h3, h4⟩
      exact ⟨h1, by omega, h3, fun q hq1 hq2 => h4 q hq1 (by omega)⟩
    · rintro ⟨h1, h2, h3, h4⟩
      exact ⟨h1, by omega, h3, fun q hq1 hq2 => h4 q hq1 (by omega)⟩

theorem strstr_last_none (s m : List Nat) (hm : nulFree m) (hne : m ≠ []) :
    strstr_last s m = none ↔
      ∀ q, 1 ≤ q → q + m.length ≤ strlen s → ¬ occursAt s m q := by
  have hlen : 0 < m.length := List.length_pos.mpr hne
  unfold strstr_last
  simp only [strlen_of_nulFree hm]
  rw [if_neg (by omega)]
  by_cases hle : (strlen s : Int) - (m.length : Int) ≤ 0
  · rw [if_pos hle]
    simp only [true_iff]
    intro q h1 h2; omega
  · rw [if_neg hle, strstr_last_loop_none s m hm hne]
    have e : ((strlen s : Int) - (m.length : Int)).toNat = strlen s - m.length := by omega
    rw [e]
    constructor
    · intro h q hq1 hq2; exact h q hq1 (by omega)
    · intro h q hq1 hq2; exact h q hq1 (by omega)

/-! ## Facts about parse_block -/

theorem take_set_succ (l : List Nat) (i c : Nat) (h : i < l.length) :
    (l.set i c).take (i + 1) = l.take i ++ [c] := by
  induction l generalizing i with
  | nil => simp at h
  | cons a t ih =>
    cases i with
    | zero => simp
    | succ j =>
      simp only [List.length_cons, Nat.add_lt_add_iff_right] at h
      simp [ih j h]

theorem cstr_set_zero (l : List Nat) (n : Nat) (h : n < l.length)
    (hk : nulFree (l.take n)) : cstr (l.set n 0) = l.take n := by
  induction l generalizing n with
  | nil => simp at h
  | cons a t ih =>
    cases n with
    | zero => simp [cstr]
    | succ j =>
      simp only [List.length_cons, Nat.add_lt_add_iff_right] at h
      have ha : a ≠ 0 := hk a (by simp)
      have ht : nulFree (t.take j) := fun c hc => hk c (by simp [hc])
      have := ih j h ht
      simp only [cstr] at this
      simp [cstr, List.takeWhile_cons, ha, this]

theorem nulFree_of_clean {s : List Nat} (h : clean s) : nulFree s :=
  fun c hc => (h c hc).2.2.2

theorem add_values_congr (list : Table) (key key2 value value2 : List Nat)
    (hk : cstr key = cstr key2) (hv : cstr value = cstr value2) :
    add_values list key value = add_values list key2 value2 := by
  unfold add_values
  rw [hk, hv]

/-- In state Key the bytes of a clean string go into `key` from `linepos` on. -/
theorem parse_loop_key (k rest : List Nat) (hk : clean k) (kf lp : Nat) (key value : List Nat)
    (list : Table) (hflag : kf = 0) (hlen : lp + k.length ≤ key.length) :
    ∃ key2, key2.length = key.length ∧ key2.take (lp + k.length) = key.take lp ++ k ∧
      parse_loop (k ++ rest) ⟨kf, lp, key, value, list⟩ =
        parse_loop rest ⟨kf, lp + k.length, key2, value, list⟩ := by
  induction k generalizing lp key with
  | nil => exact ⟨key, rfl, by simp, by simp⟩
  | cons c k ih =>
    have hc := hk c (by simp)
    have hk2 : clean k := fun d hd => hk d (by simp [hd])
    simp only [List.length_cons] at hlen
    obtain ⟨key2, h1, h2, h3⟩ := ih hk2 (lp + 1) (key.set lp c) (by simp; omega)
    refine ⟨key2, by simpa using h1, ?_, ?_⟩
    · have e : lp + (c :: k).length = lp + 1 + k.length := by simp; omega
      rw [e, h2, take_set_succ key lp c (by omega)]
      simp
    · have e : lp + (c :: k).length = lp + 1 + k.length := by simp; omega
      rw [e, ← h3]
      simp only [List.cons_append]
      rw [parse_loop]
      simp [hc.1, hc.2.1, hc.2.2.1, hc.2.2.2, hflag, poke, show lp < key.length by omega]

/-- In state Value the bytes of a clean string go into `value` from `linepos` on. -/
theorem parse_loop_value (v rest : List Nat) (hv : clean v) (kf lp : Nat)
    (key value : List Nat) (list : Table) (hflag : kf = 1)
    (hlen : lp + v.length ≤ value.length) :
    ∃ value2, value2.length = value.length ∧
      value2.take (lp + v.length) = value.take lp ++ v ∧
      parse_loop (v ++ rest) ⟨kf, lp, key, value, list⟩ =
        parse_loop rest ⟨kf, lp + v.length, key, value2, list⟩ := by
  induction v generalizing lp value with
  | nil => exact ⟨value, rfl, by simp, by simp⟩
  | cons c v ih =>
    have hc := hv c (by simp)
    have hv2 : clean v := fun d hd => hv d (by simp [hd])
    simp only [List.length_cons] at hlen
    obtain ⟨value2, h1, h2, h3⟩ := ih hv2 (lp + 1) (value.set lp c) (by simp; omega)
    refine ⟨value2, by simpa using h1, ?_, ?_⟩
    · have e : lp + (c :: v).length = lp + 1 + v.length := by simp; omega
      rw [e, h2, take_set_succ value lp c (by omega)]
      simp
    · have e : lp + (c :: v).length = lp + 1 + v.length := by simp; omega
      rw [e, ← h3]
      simp only [List.cons_append]
      rw [parse_loop]
      simp [hc.1, hc.2.1, hc.2.2.1, hc.2.2.2, hflag, poke, show lp < value.length by omega]

theorem parse_loop_tab (block : List Nat) (kf lp : Nat) (key value : List Nat)
    (list : Table) (h : lp < key.length) :
    parse_loop (0x09 :: block) ⟨kf, lp, key, value, list⟩ =
      parse_loop block ⟨1, 0, key.set lp 0, value, list⟩ := by
  simp [parse_loop, poke, h]

theorem parse_loop_cr (block : List Nat) (kf lp : Nat) (key value : List Nat)
    (list : Table) (h : lp < value.length) :
    parse_loop (0x0d :: block) ⟨kf, lp, key, value, list⟩ =
      parse_loop block ⟨0, 0, key, value.set lp 0, add_values list key (value.set lp 0)⟩ := by
  simp [parse_loop, poke, h]

theorem parse_loop_lf (block : List Nat) (s : scan) :
    parse_loop (0x0a :: block) s = parse_loop block s := by
  simp [parse_loop]

theorem parse_loop_zero (block : List Nat) (kf lp : Nat) (key value : List Nat)
    (list : Table) (h : lp < value.length) :
    parse_loop (0 :: block) ⟨kf, lp, key, value, list⟩ =
      some ⟨kf, lp, key, value.set lp 0, add_values list key (value.set lp 0)⟩ := by
  simp [parse_loop, parse_nul, poke, h]

/-- The key and value of one line reach `add_values`: after `k TAB v` the string in
`key` is `k` and, once terminated, the string in `value` is `v`. -/
theorem parse_loop_pair (k v rest : List Nat) (hk : clean k) (hv : clean v)
    (key value : List Nat) (list : Table) (hkl : k.length < key.length)
    (hvl : v.length < value.length) :
    ∃ key2 value2, key2.length = key.length ∧ value2.length = value.length ∧
      v.length < value2.length ∧
      add_values list key2 (value2.set v.length 0) = add_values list k v ∧
      parse_loop (k ++ 0x09 :: (v ++ rest)) ⟨0, 0, key, value, list⟩ =
        parse_loop rest ⟨1, v.length, key2, value2, list⟩ := by
  obtain ⟨key1, h1, h2, h3⟩ :=
    parse_loop_key k (0x09 :: (v ++ rest)) hk 0 0 key value list rfl (by omega)
  simp only [Nat.zero_add, List.take_zero, List.nil_append] at h2 h3
  obtain ⟨value2, g1, g2, g3⟩ :=
    parse_loop_value v rest hv 1 0 (key1.set k.length 0) value list rfl (by omega)
  simp only [Nat.zero_add, List.take_zero, List.nil_append] at g2 g3
  refine ⟨key1.set k.length 0, value2, by simpa using h1, g1, by omega, ?_, ?_⟩
  · apply add_values_congr
    · rw [cstr_set_zero key1 k.length (by omega) (by rw [h2]; exact nulFree_of_clean hk), h2,
        cstr_of_nulFree (nulFree_of_clean hk)]
    · rw [cstr_set_zero value2 v.length (by omega) (by rw [g2]; exact nulFree_of_clean hv), g2,
        cstr_of_nulFree (nulFree_of_clean hv)]
  · rw [h3]
    rw [parse_loop_tab _ _ _ _ _ _ (by omega)]
    exact g3

/-- A line ended by CR LF hands its pair to `add_values` and leaves the scanner in state
Key at position 0. -/
theorem parse_loop_line (k v rest : List Nat) (hk : clean k) (hv : clean v)
    (key value : List Nat) (list : Table) (hkl : k.length < key.length)
    (hvl : v.length < value.length) :
    ∃ key2 value2, key2.length = key.length ∧ value2.length = value.length ∧
      parse_loop (k ++ 0x09 :: (v ++ 0x0d :: 0x0a :: rest)) ⟨0, 0, key, value, list⟩ =
        parse_loop rest ⟨0, 0, key2, value2, add_values list k v⟩ := by
  obtain ⟨key2, value2, h1, h2, h3, h4, h5⟩ :=
    parse_loop_pair k v (0x0d :: 0x0a :: rest) hk hv key value list hkl hvl
  refine ⟨key2, value2.set v.length 0, h1, by simpa using h2, ?_⟩
  rw [h5, parse_loop_cr _ _ _ _ _ _ h3, parse_loop_lf, h4]

/-- A line ended by the NUL terminator hands its pair to `add_values` and ends the loop. -/
theorem parse_loop_last (k v rest : List Nat) (hk : clean k) (hv : clean v)
    (key value : List Nat) (list : Table) (hkl : k.length < key.length)
    (hvl : v.length < value.length) :
    ∃ key2 value2,
      parse_loop (k ++ 0x09 :: (v ++ 0 :: rest)) ⟨0, 0, key, value, list⟩ =
        some ⟨1, v.length, key2, value2, add_values list k v⟩ := by
  obtain ⟨key2, value2, h1, h2, h3, h4, h5⟩ :=
    parse_loop_pair k v (0 :: rest) hk hv key value list hkl hvl
  refine ⟨key2, value2.set v.length 0, ?_⟩
  rw [h5, parse_loop_zero _ _ _ _ _ _ h3, h4]

/-- A block of clean lines ended by NUL is decoded line by line. -/
theorem parse_loop_block (lines : List (List Nat × List Nat)) (hne : lines ≠ [])
    (rest key value : List Nat) (list : Table)
    (hclean : ∀ p ∈ lines, clean p.1 ∧ clean p.2)
    (hshort : ∀ p ∈ lines, p.1.length < key.length ∧ p.2.length < value.length) :
    ∃ s, parse_loop (block_of lines ++ 0 :: rest) ⟨0, 0, key, value, list⟩ = some s ∧
      s.list = add_lines list lines := by
  induction lines generalizing key value list with
  | nil => exact absurd rfl hne
  | cons p lines ih =>
    have hp := hclean p (by simp)
    have hs := hshort p (by simp)
    cases lines with
    | nil =>
      obtain ⟨key2, value2, h⟩ := parse_loop_last p.1 p.2 rest hp.1 hp.2 key value list hs.1 hs.2
      refine ⟨⟨1, p.2.length, key2, value2, add_values list p.1 p.2⟩, ?_, rfl⟩
      simp only [block_of, List.append_assoc, List.cons_append]
      exact h
    | cons q lines =>
      obtain ⟨key2, value2, h1, h2, h3⟩ :=
        parse_loop_line p.1 p.2 (block_of (q :: lines) ++ 0 :: rest) hp.1 hp.2 key value list
          hs.1 hs.2
      obtain ⟨s, g1, g2⟩ := ih (by simp) key2 value2 (add_values list p.1 p.2)
        (fun r hr => hclean r (by simp [List.mem_cons] at hr ⊢; tauto))
        (fun r hr => by
          rw [h1, h2]; exact hshort r (by simp [List.mem_cons] at hr ⊢; tauto))
      refine ⟨s, ?_, ?_⟩
      · simp only [block_of, List.append_assoc, List.cons_append]
        rw [h3]; exact g1
      · rw [g2]; rfl

theorem add_values_apply (list : Table) (k v : List Nat) (hk : nulFree k) (hv : nulFree v)
    (i : Fin 19) :
    add_values list k v i = if k = (list i).code then { list i with val := v } else list i := by
  unfold add_values
  rw [cstr_of_nulFree hk, cstr_of_nulFree hv]

/-- The table after a sequence of `add_values`: codes stay, the last line with the code of
an entry gives its `val`, and an entry whose code is on no line keeps its `val`. -/
theorem add_lines_spec (lines : List (List Nat × List Nat))
    (hclean : ∀ p ∈ lines, clean p.1 ∧ clean p.2) (list : Table) (i : Fin 19) :
    (add_lines list lines i).code = (list i).code ∧
      (∀ n (hn : n < lines.length), (lines.get ⟨n, hn⟩).1 = (list i).code →
        (∀ m (hm : m < lines.length), n < m → (lines.get ⟨m, hm⟩).1 ≠ (list i).code) →
        (add_lines list lines i).val = (lines.get ⟨n, hn⟩).2) ∧
      ((∀ p ∈ lines, p.1 ≠ (list i).code) → (add_lines list lines i).val = (list i).val) := by
  induction lines generalizing list with
  | nil =>
    refine ⟨rfl, ?_, fun _ => rfl⟩
    intro n hn
    simp at hn
  | cons p ps ih =>
    have hp := hclean p (by simp)
    have hps : ∀ q ∈ ps, clean q.1 ∧ clean q.2 := fun q hq => hclean q (by simp [hq])
    have happ := add_values_apply list p.1 p.2 (nulFree_of_clean hp.1) (nulFree_of_clean hp.2) i
    have hcode : (add_values list p.1 p.2 i).code = (list i).code := by
      rw [happ]; split <;> rfl
    obtain ⟨h1, h2, h3⟩ := ih hps (add_values list p.1 p.2)
    rw [hcode] at h1 h2 h3
    have hunf : add_lines list (p :: ps) = add_lines (add_values list p.1 p.2) ps := rfl
    rw [hunf]
    refine ⟨h1, ?_, ?_⟩
    · intro n hn hkey hlater
      cases n with
      | zero =>
        change p.1 = (list i).code at hkey
        change _ = p.2
        rw [h3, happ, if_pos hkey]
        intro q hq
        obtain ⟨⟨m, hm⟩, rfl⟩ := List.mem_iff_get.mp hq
        have := hlater (m + 1) (by simp; omega) (by omega)
        simpa using this
      | succ n =>
        change (ps.get ⟨n, Nat.lt_of_succ_lt_succ hn⟩).1 = (list i).code at hkey
        change _ = (ps.get ⟨n, Nat.lt_of_succ_lt_succ hn⟩).2
        apply h2 n (Nat.lt_of_succ_lt_succ hn) hkey
        intro m hm hnm
        have := hlater (m + 1) (by simp; omega) (by omega)
        simpa using this
    · intro hno
      rw [h3 (fun q hq => hno q (by simp [hq])), happ, if_neg (hno p (by simp))]

/-! ## Claim C1: parse_block -/

/-- C1: a block of lines `ki TAB vi` separated by CR LF and ended by the NUL terminator,
with keys and values free of TAB, CR, LF and NUL and shorter than 255 bytes, is decoded by
parse_block from the initial table so that every entry has the value of the last line
that carries its code, and the empty value when no line carries its code. The codes of the
table stay as they are. (The keys need not be known codes for this.) -/
theorem C1_last_write_wins (lines : List (List Nat × List Nat)) (key value rest : List Nat)
    (hkey : key.length = 255) (hvalue : value.length = 255)
    (hclean : ∀ p ∈ lines, clean p.1 ∧ clean p.2)
    (hshort : ∀ p ∈ lines, p.1.length < 255 ∧ p.2.length < 255) :
    ∃ t, parse_block key value bsolar (block_of lines ++ 0 :: rest) = some t ∧
      ∀ i : Fin 19,
        (t i).code = (bsolar i).code ∧
        (∀ n (hn : n < lines.length), (lines.get ⟨n, hn⟩).1 = (bsolar i).code →
          (∀ m (hm : m < lines.length), n < m → (lines.get ⟨m, hm⟩).1 ≠ (bsolar i).code) →
          (t i).val = (lines.get ⟨n, hn⟩).2) ∧
        ((∀ p ∈ lines, p.1 ≠ (bsolar i).code) → (t i).val = []) := by
  by_cases hne : lines = []
  · subst hne
    refine ⟨add_values bsolar key (value.set 0 0), ?_, fun i => ⟨?_, ?_, fun _ => ?_⟩⟩
    · unfold parse_block
      rw [show block_of [] ++ 0 :: rest = 0 :: rest from rfl,
        parse_loop_zero _ _ _ _ _ _ (by omega)]
      rfl
    · unfold add_values; split <;> rfl
    · intro n hn; simp at hn
    · have hz : cstr (value.set 0 0) = [] := by
        cases value with
        | nil => simp at hvalue
        | cons a t => simp [cstr]
      unfold add_values
      rw [hz]
      split <;> rfl
  · obtain ⟨s, h1, h2⟩ := parse_loop_block lines hne rest key value bsolar hclean
      (by rw [hkey, hvalue]; exact hshort)
    refine ⟨s.list, ?_, ?_⟩
    · unfold parse_block
      rw [h1]; rfl
    · intro i
      rw [h2]
      exact add_lines_spec lines hclean bsolar i

/-- C1 at the block "V TAB 12000 CR LF CS TAB 3 CR LF V TAB 12560", where V is listed
twice. -/
theorem C1_last_write_wins_witness :
    ∃ t, parse_block (List.replicate 255 0) (List.replicate 255 0) bsolar
        (block_of lines_twice ++ 0 :: []) = some t ∧
      ∀ i : Fin 19,
        (t i).code = (bsolar i).code ∧
        (∀ n (hn : n < lines_twice.length), (lines_twice.get ⟨n, hn⟩).1 = (bsolar i).code →
          (∀ m (hm : m < lines_twice.length), n < m →
            (lines_twice.get ⟨m, hm⟩).1 ≠ (bsolar i).code) →
          (t i).val = (lines_twice.get ⟨n, hn⟩).2) ∧
        ((∀ p ∈ lines_twice, p.1 ≠ (bsolar i).code) → (t i).val = []) :=
  C1_last_write_wins lines_twice (List.replicate 255 0) (List.replicate 255 0) []
    (List.length_replicate 255 0) (List.length_replicate 255 0) (by decide) (by decide)

/-! ## Facts about the frame location -/

theorem occursAt_iff_getElem? (s m : List Nat) (q : Nat) :
    occursAt s m q ↔ ∀ i, i < m.length → s[q + i]? = m[i]? := by
  unfold occursAt
  constructor
  · intro h i hi
    have := congrArg (fun l => l[i]?) h
    simp only [List.getElem?_take, if_pos hi, List.getElem?_drop] at this
    exact this
  · intro h
    apply List.ext_getElem?
    intro i
    rw [List.getElem?_take, List.getElem?_drop]
    by_cases hi : i < m.length
    · rw [if_pos hi]; exact h i hi
    · rw [if_neg hi, List.getElem?_eq_none (by omega)]

theorem occursAt_append (a m b : List Nat) : occursAt (a ++ m ++ b) m a.length := by
  unfold occursAt
  rw [List.append_assoc, List.drop_left' rfl, List.take_left' rfl]

theorem strlen_set_le (s : List Nat) (i : Nat) : strlen (s.set i 0) ≤ i := by
  induction s generalizing i with
  | nil => simp [strlen, cstr]
  | cons a t ih =>
    cases i with
    | zero => simp [strlen, cstr]
    | succ j =>
      have := ih j
      simp only [strlen, cstr, List.set_cons_succ, List.takeWhile_cons] at this ⊢
      split
      · simp only [List.length_cons]; omega
      · simp

/-- A start marker that lies at or before offset `e + 6` of a buffer that agrees, below
offset `e + 10`, with a buffer holding the end marker at `e`, ends before `e`. -/
theorem start_before_end (s t : List Nat) (e p : Nat) (hE : occursAt s endstring e)
    (hS : occursAt t startstring p) (hsame : ∀ j, j < e + 10 → t[j]? = s[j]?)
    (hp : p ≤ e + 6) : p + 4 ≤ e := by
  rw [occursAt_iff_getElem?] at hE hS
  by_contra hcon
  by_cases hpe : e ≤ p
  · obtain ⟨i, rfl⟩ : ∃ i, p = e + i := ⟨p - e, by omega⟩
    have h1 := hS 0 (by decide)
    have h2 := hE i (by simp [endstring]; omega)
    rw [Nat.add_zero, hsame _ (by omega), h2] at h1
    have hi : i ≤ 6 := by omega
    interval_cases i <;> simp [endstring, startstring] at h1
  · obtain ⟨i, hi⟩ : ∃ i, p + 3 = e + i := ⟨p + 3 - e, by omega⟩
    have h1 := hS 3 (by decide)
    have h2 := hE i (by simp [endstring]; omega)
    rw [hsame _ (by omega), hi, h2] at h1
    have hi2 : i ≤ 2 := by omega
    interval_cases i <;> simp [endstring, startstring] at h1

theorem nulFree_startstring : nulFree startstring := by decide

theorem nulFree_endstring : nulFree endstring := by decide

/-- What holds of a frame returned by the frame location. -/
theorem main_locate_some (cap : List Nat) (f : frame) (h : main_locate cap = some f) :
    occursAt cap startstring f.startpos ∧ occursAt cap endstring f.endpos ∧
      1 ≤ f.startpos ∧ f.startpos + 4 ≤ f.endpos ∧
      (f.serbuf = cap ∨ f.serbuf = cap.set (f.endpos + 10) 0) := by
  unfold main_locate at h
  cases h1 : strstr_last cap startstring with
  | none => rw [h1] at h; cases h
  | some sp =>
    cases h2 : strstr_last cap endstring with
    | none => rw [h1, h2] at h; cases h
    | some ep =>
      rw [h1, h2] at h
      simp only at h
      have hs := (strstr_last_some cap startstring nulFree_startstring (by decide) sp).mp h1
      have he := (strstr_last_some cap endstring nulFree_endstring (by decide) ep).mp h2
      by_cases hlt : ep < sp
      · rw [if_pos hlt] at h
        cases h3 : strstr_last (cap.set (ep + 10) 0) startstring with
        | none => rw [h3] at h; cases h
        | some sp2 =>
          rw [h3] at h
          simp only [Option.some.injEq] at h
          subst h
          have hs2 := (strstr_last_some _ startstring nulFree_startstring (by decide) sp2).mp h3
          have hle := strlen_set_le cap (ep + 10)
          have hlen : startstring.length = 4 := rfl
          have hsame : ∀ j, j < ep + 10 → (cap.set (ep + 10) 0)[j]? = cap[j]? :=
            fun j hj => List.getElem?_set_ne (by omega)
          have hb := start_before_end cap _ ep sp2 he.2.2.1 hs2.2.2.1 hsame (by omega)
          refine ⟨?_, he.2.2.1, hs2.1, hb, Or.inr rfl⟩
          show occursAt cap startstring sp2
          rw [occursAt_iff_getElem?]
          intro i hi
          rw [← hsame _ (by omega)]
          exact (occursAt_iff_getElem? _ _ _).mp hs2.2.2.1 i hi
      · rw [if_neg hlt] at h
        simp only [Option.some.injEq] at h
        subst h
        have hb := start_before_end cap cap ep sp he.2.2.1 hs.2.2.1 (fun _ _ => rfl) (by omega)
        exact ⟨hs.2.2.1, he.2.2.1, hs.1, hb, Or.inl rfl⟩

/-- An occurrence of a non-empty marker starts inside the buffer, so a property of all
occurrences may be checked below the length of the buffer. -/
theorem forall_occursAt_of_lt {P : Nat → Prop} (s m : List Nat) (hm : m ≠ [])
    (h : ∀ p, p < s.length → occursAt s m p → P p) : ∀ p, occursAt s m p → P p := by
  intro p hp
  apply h p _ hp
  have h0 : 0 < m.length := List.length_pos.mpr hm
  rcases occursAt_le_length hp with h1 | h1
  · omega
  · exact absurd h1 hm

/-- The function `strstr_last` never returns offset 0 for a non-empty marker. -/
theorem strstr_last_ne_zero (s m : List Nat) (hm : nulFree m) (hne : m ≠ []) :
    strstr_last s m ≠ some 0 := by
  intro h
  have := ((strstr_last_some s m hm hne 0).mp h).1
  omega

theorem strlen_set_zero (s : List Nat) (i : Nat) (hs : nulFree s) (hi : i < s.length) :
    strlen (s.set i 0) = i := by
  unfold strlen
  rw [cstr_set_zero s i hi (fun c hc => hs c (List.mem_of_mem_take hc)), List.length_take]
  omega

/-- A start marker does not begin inside an end marker or at its last byte. -/
theorem start_after_end (s : List Nat) (e p : Nat) (hE : occursAt s endstring e)
    (hS : occursAt s startstring p) (hp : e < p) : e + 9 ≤ p := by
  rw [occursAt_iff_getElem?] at hE hS
  by_contra hcon
  obtain ⟨i, rfl⟩ : ∃ i, p = e + i := ⟨p - e, by omega⟩
  have h1 := hS 0 (by decide)
  have h2 := hE i (by simp [endstring]; omega)
  rw [Nat.add_zero, h2] at h1
  have hi : i ≤ 8 := by omega
  interval_cases i <;> simp [endstring, startstring] at h1

/-- The correction of the frame location, for an enclosing start marker at an offset
from 1 on: in a NUL-free capture whose last end marker `e` lies before its last start
marker `s`, the capture is cut after offset `e + 9` and the start offset is the greatest
offset `p` below `e` that holds a start marker, provided `1 ≤ p`. -/
theorem main_locate_wrapped (cap : List Nat) (hnul : nulFree cap) (e s p : Nat)
    (hE : occursAt cap endstring e) (hElast : ∀ q, occursAt cap endstring q → q ≤ e)
    (hS : occursAt cap startstring s) (hSlast : ∀ q, occursAt cap startstring q → q ≤ s)
    (hes : e < s)
    (hP : occursAt cap startstring p) (hpe : p < e)
    (hPlast : ∀ q, occursAt cap startstring q → q < e → q ≤ p) (hp1 : 1 ≤ p) :
    main_locate cap = some ⟨p, e, cap.set (e + 10) 0⟩ := by
  have hS4 : startstring.length = 4 := rfl
  have hE9 : endstring.length = 9 := rfl
  have hsl : s + 4 ≤ cap.length := by
    rcases occursAt_le_length hS with h | h
    · simpa [hS4] using h
    · exact absurd h (by decide)
  have hel : e + 9 ≤ cap.length := by
    rcases occursAt_le_length hE with h | h
    · simpa [hE9] using h
    · exact absurd h (by decide)
  have hse := start_after_end cap e s hE hS hes
  have h1 : strstr_last cap startstring = some s := by
    rw [strstr_last_some _ _ nulFree_startstring (by decide), strlen_of_nulFree hnul]
    exact ⟨by omega, by omega, hS, fun q hq _ hocc => by have := hSlast q hocc; omega⟩
  have h2 : strstr_last cap endstring = some e := by
    rw [strstr_last_some _ _ nulFree_endstring (by decide), strlen_of_nulFree hnul]
    exact ⟨by omega, by omega, hE, fun q hq _ hocc => by have := hElast q hocc; omega⟩
  have hsame : ∀ j, j < e + 10 → (cap.set (e + 10) 0)[j]? = cap[j]? :=
    fun j hj => List.getElem?_set_ne (by omega)
  have h3 : strstr_last (cap.set (e + 10) 0) startstring = some p := by
    rw [strstr_last_some _ _ nulFree_startstring (by decide),
      strlen_set_zero cap (e + 10) hnul (by omega)]
    refine ⟨hp1, by omega, ?_, fun q hq hql hocc => ?_⟩
    · rw [occursAt_iff_getElem?]
      intro i hi
      rw [hsame _ (by omega)]
      exact (occursAt_iff_getElem? _ _ _).mp hP i hi
    · have hb := start_before_end cap _ e q hE hocc hsame (by omega)
      have hq2 : occursAt cap startstring q := by
        rw [occursAt_iff_getElem?]
        intro i hi
        rw [← hsame _ (by omega)]
        exact (occursAt_iff_getElem? _ _ _).mp hocc i hi
      have := hPlast q hq2 (by omega)
      omega
  unfold main_locate
  rw [h1, h2]
  simp only
  rw [if_pos hes, h3]

/-- When the correction of the frame location ran, the string left in `serbuf` ends at or
before offset `endpos + 10`, just after the checksum byte. -/
theorem main_locate_cut (cap : List Nat) (f : frame) (h : main_locate cap = some f)
    (hcut : f.serbuf ≠ cap) : strlen f.serbuf ≤ f.endpos + 10 := by
  rcases (main_locate_some cap f h).2.2.2.2 with h1 | h1
  · exact absurd h1 hcut
  · rw [h1]; exact strlen_set_le cap (f.endpos + 10)

/-! ## Claims C2 to C7: strstr_last and the frame location -/

/-- C2 (fails on the code): strstr_last never tests offset 0. In the NUL-free buffer
"PID TAB V" the start marker occurs at offset 0 and nowhere else, and strstr_last returns
NULL; it also returns NULL when the buffer is exactly the marker. -/
theorem C2_strstr_last_misses_offset_zero :
    nulFree (bytes "PID\tV") ∧ occursAt (bytes "PID\tV") startstring 0 ∧
      strstr_last (bytes "PID\tV") startstring = none ∧
      occursAt startstring startstring 0 ∧
      strstr_last startstring startstring = none := by
  decide

/-- C3: in a NUL-free capture of the form E b1 X S Y E b2 with no further occurrence of
the start marker S or the end marker E, the frame location succeeds with the start offset
at S and the end offset at the second E, and leaves the capture as it is. -/
theorem C3_locate_later_pair (b1 b2 : Nat) (X Y : List Nat)
    (hnul : nulFree (endstring ++ [b1] ++ X ++ startstring ++ Y ++ endstring ++ [b2]))
    (hS : ∀ p, occursAt (endstring ++ [b1] ++ X ++ startstring ++ Y ++ endstring ++ [b2])
        startstring p → p = (endstring ++ [b1] ++ X).length)
    (hE : ∀ p, occursAt (endstring ++ [b1] ++ X ++ startstring ++ Y ++ endstring ++ [b2])
        endstring p → p = 0 ∨ p = (endstring ++ [b1] ++ X ++ startstring ++ Y).length) :
    main_locate (endstring ++ [b1] ++ X ++ startstring ++ Y ++ endstring ++ [b2]) =
      some { startpos := (endstring ++ [b1] ++ X).length,
             endpos := (endstring ++ [b1] ++ X ++ startstring ++ Y).length,
             serbuf := endstring ++ [b1] ++ X ++ startstring ++ Y ++ endstring ++ [b2] } := by
  have hE9 : endstring.length = 9 := rfl
  have hS4 : startstring.length = 4 := rfl
  have hoS : occursAt (endstring ++ [b1] ++ X ++ startstring ++ Y ++ endstring ++ [b2])
      startstring (endstring ++ [b1] ++ X).length := by
    have := occursAt_append (endstring ++ [b1] ++ X) startstring (Y ++ endstring ++ [b2])
    simpa [List.append_assoc] using this
  have hoE : occursAt (endstring ++ [b1] ++ X ++ startstring ++ Y ++ endstring ++ [b2])
      endstring (endstring ++ [b1] ++ X ++ startstring ++ Y).length :=
    occursAt_append (endstring ++ [b1] ++ X ++ startstring ++ Y) endstring [b2]
  have h1 : strstr_last (endstring ++ [b1] ++ X ++ startstring ++ Y ++ endstring ++ [b2])
      startstring = some (endstring ++ [b1] ++ X).length := by
    rw [strstr_last_some _ _ nulFree_startstring (by decide)]
    refine ⟨?_, ?_, hoS, fun q hq _ hocc => ?_⟩
    · simp only [List.length_append, List.length_cons, List.length_nil, hE9]; omega
    · rw [strlen_of_nulFree hnul]
      simp only [List.length_append, List.length_cons, List.length_nil, hE9, hS4]; omega
    · have := hS q hocc; omega
  have h2 : strstr_last (endstring ++ [b1] ++ X ++ startstring ++ Y ++ endstring ++ [b2])
      endstring = some (endstring ++ [b1] ++ X ++ startstring ++ Y).length := by
    rw [strstr_last_some _ _ nulFree_endstring (by decide)]
    refine ⟨?_, ?_, hoE, fun q hq _ hocc => ?_⟩
    · simp only [List.length_append, List.length_cons, List.length_nil, hE9]; omega
    · rw [strlen_of_nulFree hnul]
      simp only [List.length_append, List.length_cons, List.length_nil, hE9, hS4]; omega
    · rcases hE q hocc with h | h <;> omega
  unfold main_locate
  rw [h1, h2]
  simp only
  rw [if_neg (by
    simp only [List.length_append, List.length_cons, List.length_nil, hE9, hS4]; omega)]

/-- C3 at the capture "Checksum TAB A CR LF PID TAB 0xA042 CR LF V TAB 12000 CR LF
Checksum TAB Z". -/
theorem C3_locate_later_pair_witness :
    main_locate (endstring ++ [0x41] ++ bytes "\r\n" ++ startstring
        ++ bytes "0xA042\r\nV\t12000\r\n" ++ endstring ++ [0x5a]) =
      some { startpos := 12, endpos := 33,
             serbuf := endstring ++ [0x41] ++ bytes "\r\n" ++ startstring
               ++ bytes "0xA042\r\nV\t12000\r\n" ++ endstring ++ [0x5a] } :=
  C3_locate_later_pair 0x41 0x5a (bytes "\r\n") (bytes "0xA042\r\nV\t12000\r\n")
    (by decide)
    (forall_occursAt_of_lt _ _ (by decide) (by decide))
    (forall_occursAt_of_lt _ _ (by decide) (by decide))

/-- C4 (fails on the code): in the NUL-free capture "PID TAB A Checksum TAB Z PID TAB B"
the last end marker (offset 5) lies before the last start marker (offset 15) and a start
marker occurs below it, at offset 0; the frame location does not succeed, because the
second search with strstr_last does not test offset 0. With one more byte in front the
same capture is located at start offset 1. -/
theorem C4_locate_fails_for_start_at_zero :
    nulFree (bytes "PID\tAChecksum\tZPID\tB") ∧
      occursAt (bytes "PID\tAChecksum\tZPID\tB") endstring 5 ∧
      occursAt (bytes "PID\tAChecksum\tZPID\tB") startstring 15 ∧
      occursAt (bytes "PID\tAChecksum\tZPID\tB") startstring 0 ∧
      main_locate (bytes "PID\tAChecksum\tZPID\tB") = none ∧
      main_locate capture_wrapped =
        some { startpos := 1, endpos := 6,
               serbuf := capture_wrapped.set 16 0 } := by
  decide

/-- C5: when the capture holds no start marker, or no end marker, or every start marker
lies after every end marker, the frame location fails and main exits with status -1
without decoding: no record and no RRD string. -/
theorem C5_no_frame_no_record (key value : List Nat) (list : Table) (cap : List Nat)
    (h : (∀ p, ¬ occursAt cap startstring p) ∨ (∀ q, ¬ occursAt cap endstring q) ∨
      (∀ p, occursAt cap startstring p → ∀ q, occursAt cap endstring q → q < p)) :
    main_locate cap = none ∧
      main key value list cap = some { status := -1, record := none, rrdstr := none } := by
  have hnone : main_locate cap = none := by
    cases hf : main_locate cap with
    | none => rfl
    | some f =>
      obtain ⟨hs, he, -, hlt, -⟩ := main_locate_some cap f hf
      rcases h with h | h | h
      · exact absurd hs (h _)
      · exact absurd he (h _)
      · have := h _ hs _ he; omega
  refine ⟨hnone, ?_⟩
  unfold main
  rw [hnone]

/-- C5 at the capture "x Checksum TAB Z CR LF PID TAB 0xA042", whose only start marker
lies after its only end marker. -/
theorem C5_no_frame_no_record_witness :
    main_locate (bytes "xChecksum\tZ\r\nPID\t0xA042") = none ∧
      main [] [] bsolar (bytes "xChecksum\tZ\r\nPID\t0xA042") =
        some { status := -1, record := none, rrdstr := none } :=
  C5_no_frame_no_record [] [] bsolar (bytes "xChecksum\tZ\r\nPID\t0xA042")
    (Or.inr (Or.inr (fun p hp q hq => by
      have h1 : p = 13 :=
        @forall_occursAt_of_lt (fun n => n = 13) _ _ (by decide) (by decide) p hp
      have h2 : q = 1 :=
        @forall_occursAt_of_lt (fun n => n = 1) _ _ (by decide) (by decide) q hq
      omega)))

/-- C6: whenever the frame location succeeds, with or without the correction, the start
offset is below the end offset. -/
theorem C6_start_before_end (cap : List Nat) (f : frame) (h : main_locate cap = some f) :
    f.startpos < f.endpos := by
  have := (main_locate_some cap f h).2.2.2.1
  omega

/-- C6 at a capture on which the correction is applied. -/
theorem C6_start_before_end_witness :
    main_locate capture_wrapped =
        some { startpos := 1, endpos := 6,
               serbuf := capture_wrapped.set 16 0 } ∧ 1 < 6 :=
  ⟨by decide, C6_start_before_end capture_wrapped
    { startpos := 1, endpos := 6, serbuf := capture_wrapped.set 16 0 }
    (by decide)⟩

set_option maxRecDepth 100000 in
/-- C7 (fails on the code): in the capture
"CR LF PID TAB 0xA042 CR LF V TAB 12000 CR LF Checksum TAB Z CR LF V TAB 99" the frame
is located without correction at start offset 2 and end offset 23, so its checksum byte
is at offset 32. The string copied into blockbuf runs on to the end of the capture, 6 bytes
past the checksum byte, and parse_block stores the value 99 received after the frame
under V. -/
theorem C7_block_runs_past_frame :
    main_locate capture_trailing = some ⟨2, 23, capture_trailing⟩ ∧
      cstr (main_block ⟨2, 23, capture_trailing⟩) = capture_trailing.drop 2 ∧
      (capture_trailing.drop 2).length = (23 + 10 - 2) + 6 ∧
      (parse_block (List.replicate 255 0) (List.replicate 255 0) bsolar
          (main_block ⟨2, 23, capture_trailing⟩)).map (fun t => (t 0).val)
        = some (bytes "99") := by
  decide

/-! ## Facts about convert_units -/

/-- Values of `atol`: white space and a sign may lead, the number ends at the first
character that is no digit, and a string without a number gives 0. -/
theorem atol_values :
    atol [] = 0 ∧ atol (bytes "abc") = 0 ∧ atol (bytes "12560") = 12560 ∧
      atol (bytes "12560mV") = 12560 ∧ atol (bytes "-250") = -250 ∧
      atol (bytes "+7") = 7 ∧ atol (bytes " 42") = 42 ∧ atol (bytes "0x10") = 0 := by
  decide

/-- Values of `atol` and `atoi` for numerals outside the type: `atol` stops at the ends of
the range of `long`, and `atoi` keeps the low 32 bits of that result. -/
theorem atoi_values :
    atol (bytes "99999999999999999999") = LONG_MAX ∧
      atol (bytes "-99999999999999999999") = LONG_MIN ∧
      atoi (bytes "4294967298") = 2 ∧ atoi (bytes "2147483648") = -2147483648 ∧
      atoi (bytes "3") = 3 ∧ atoi (bytes "-1") = -1 := by
  decide

theorem set_base_apply (list : Table) (i j : Fin 19) (b : ℚ) :
    set_base list i b j = if j = i then { list i with base := b } else list j := by
  unfold set_base
  rw [Function.update_apply]

theorem set_val_apply (list : Table) (i j : Fin 19) (v : List Nat) :
    set_val list i v j = if j = i then { list i with val := v } else list j := by
  unfold set_val
  rw [Function.update_apply]

theorem cs_name_eq (n : Int) :
    cs_name n =
      if n = 0 then some "Off" else if n = 2 then some "Fault"
      else if n = 3 then some "Bulk" else if n = 4 then some "Absorption"
      else if n = 5 then some "Float" else none := by
  unfold cs_name
  split <;> simp_all

theorem convert_units_steps (list : Table) :
    (convert_units list).1 =
      convert_pid (base_div (convert_cs (base_mul (base_mul (base_mul (base_div (base_div
        (set_base (base_div (base_div list 0 1000) 1 1000) 2
          (atol (base_div (base_div list 0 1000) 1 1000 2).val)) 3 1000) 4 1000) 7 1000)
          8 1000) 10 1000)) 14 100) := rfl

theorem base_div_apply (list : Table) (i j : Fin 19) (d : ℚ) :
    base_div list i d j =
      if j = i then { list i with base := (atol (list i).val : ℚ) / d } else list j := by
  unfold base_div
  simp only [set_base_apply]
  split <;> simp

theorem base_mul_apply (list : Table) (i j : Fin 19) (m : ℚ) :
    base_mul list i m j =
      if j = i then { list i with base := (atol (list i).val : ℚ) * m } else list j := by
  unfold base_mul
  simp only [set_base_apply]
  split <;> simp

theorem convert_cs_apply (list : Table) (j : Fin 19) :
    convert_cs list j =
      if j = 13 then
        { list 13 with
          base := (atol (list 13).val : ℚ),
          val := (if atoi (list 13).val = 0 then bytes "Off"
                  else if atoi (list 13).val = 2 then bytes "Fault"
                  else if atoi (list 13).val = 3 then bytes "Bulk"
                  else if atoi (list 13).val = 4 then bytes "Absorption"
                  else if atoi (list 13).val = 5 then bytes "Float"
                  else (list 13).val) }
      else list j := by
  unfold convert_cs
  rw [cs_name_eq]
  simp only [set_base_apply, if_pos]
  split_ifs <;> simp_all [set_base_apply, set_val_apply]

theorem convert_pid_apply (list : Table) (j : Fin 19) :
    convert_pid list j =
      if j = 15 then
        { list 15 with
          base := (strtol (list 15).val 0 : ℚ),
          val := bytes (pid_name (strtol (list 15).val 0)) }
      else list j := by
  unfold convert_pid
  simp only [set_base_apply, set_val_apply]
  split <;> simp

/-- The `val` written by `convert_units` for CS and PID. -/
theorem convert_units_val (list : Table) :
    ((convert_units list).1 13).val =
        (if atoi (list 13).val = 0 then bytes "Off"
         else if atoi (list 13).val = 2 then bytes "Fault"
         else if atoi (list 13).val = 3 then bytes "Bulk"
         else if atoi (list 13).val = 4 then bytes "Absorption"
         else if atoi (list 13).val = 5 then bytes "Float"
         else (list 13).val) ∧
      ((convert_units list).1 15).val = bytes (pid_name (strtol (list 15).val 0)) := by
  rw [convert_units_steps]
  simp [convert_pid_apply, convert_cs_apply, base_div_apply, base_mul_apply, set_base_apply]

/-- The value left in `retcode` by `convert_units`. -/
theorem convert_units_retcode (list : Table) :
    (convert_units list).2 = atoi (list 13).val := by
  have h : (convert_units list).2 =
      atoi (set_base (base_mul (base_mul (base_mul (base_div (base_div
        (set_base (base_div (base_div list 0 1000) 1 1000) 2
          (atol (base_div (base_div list 0 1000) 1 1000 2).val)) 3 1000) 4 1000) 7 1000)
          8 1000) 10 1000) 13 (atol (base_mul (base_mul (base_mul (base_div (base_div
        (set_base (base_div (base_div list 0 1000) 1 1000) 2
          (atol (base_div (base_div list 0 1000) 1 1000 2).val)) 3 1000) 4 1000) 7 1000)
          8 1000) 10 1000 13).val) 13).val := rfl
  rw [h]
  simp [base_div_apply, base_mul_apply, set_base_apply]

/-! ## Claims C8 to C10: convert_units -/

/-- C10: after convert_units the PID value is the name that the switch lists for the
identifier read by strtol (base 0) from the raw value; the identifiers with a name are
0x0300 and 0xA040 to 0xA05F, and every other identifier gives *UNKNOWN*. Raw 0xA050
becomes SmartSolar MPPT 250/100 and raw 0x9999 becomes *UNKNOWN*. -/
theorem C10_pid_mapping (list : Table) :
    (bsolar 15).code = bytes "PID" ∧
      ((convert_units list).1 15).val = bytes (pid_name (strtol (list 15).val 0)) ∧
      (∀ pid : Int, pid_name pid = "*UNKNOWN*" ↔
        ¬ (pid = 0x0300 ∨ (0xa040 ≤ pid ∧ pid ≤ 0xa05f))) ∧
      ((convert_units (set_val list 15 (bytes "0xA050"))).1 15).val
        = bytes "SmartSolar MPPT 250/100" ∧
      ((convert_units (set_val list 15 (bytes "0x9999"))).1 15).val = bytes "*UNKNOWN*" := by
  refine ⟨by decide, (convert_units_val list).2, ?_, ?_, ?_⟩
  · intro pid
    constructor
    · intro h hk
      rcases hk with hk | ⟨h1, h2⟩
      · subst hk; revert h; decide
      · interval_cases pid <;> revert h <;> decide
    · intro h
      unfold pid_name
      split <;> first | rfl | omega
  · rw [(convert_units_val _).2, set_val_apply, if_pos rfl]
    rw [show strtol (bytes "0xA050") 0 = 0xa050 by decide]
    decide
  · rw [(convert_units_val _).2, set_val_apply, if_pos rfl]
    rw [show strtol (bytes "0x9999") 0 = 0x9999 by decide]
    decide

/-! ## Facts for the claims C11 to C20 -/

theorem add_lines_apply (lines : List (List Nat × List Nat)) (list : Table) (i : Fin 19) :
    add_lines list lines i =
      { list i with val := last_value lines (list i).code (list i).val } := by
  induction lines generalizing list with
  | nil => rfl
  | cons p ps ih =>
    have hunf : add_lines list (p :: ps) = add_lines (add_values list p.1 p.2) ps := rfl
    rw [hunf, ih]
    unfold add_values last_value
    simp only [List.foldl_cons]
    split <;> simp_all

theorem convert_units_apply (list : Table) (i : Fin 19) :
    (convert_units list).1 i = conv_entry i (list i) := by
  rw [convert_units_steps]
  fin_cases i <;>
    simp [convert_pid_apply, convert_cs_apply, base_div_apply, base_mul_apply, set_base_apply,
      conv_entry, cs_val]

/-- After `k TAB v` the scanner is in state Value, the string in `key` is `k` and `value`
starts with `v`. -/
theorem parse_loop_pair_key (k v rest : List Nat) (hk : clean k) (hv : clean v)
    (key value : List Nat) (list : Table) (hkl : k.length < key.length)
    (hvl : v.length < value.length) :
    ∃ key2 value2, key2.length = key.length ∧ value2.length = value.length ∧
      cstr key2 = k ∧ value2.take v.length = v ∧
      parse_loop (k ++ 0x09 :: (v ++ rest)) ⟨0, 0, key, value, list⟩ =
        parse_loop rest ⟨1, v.length, key2, value2, list⟩ := by
  obtain ⟨key1, h1, h2, h3⟩ :=
    parse_loop_key k (0x09 :: (v ++ rest)) hk 0 0 key value list rfl (by omega)
  simp only [Nat.zero_add, List.take_zero, List.nil_append] at h2 h3
  obtain ⟨value2, g1, g2, g3⟩ :=
    parse_loop_value v rest hv 1 0 (key1.set k.length 0) value list rfl (by omega)
  simp only [Nat.zero_add, List.take_zero, List.nil_append] at g2 g3
  refine ⟨key1.set k.length 0, value2, by simpa using h1, g1, ?_, g2, ?_⟩
  · rw [cstr_set_zero key1 k.length (by omega) (by rw [h2]; exact nulFree_of_clean hk), h2]
  · rw [h3, parse_loop_tab _ _ _ _ _ _ (by omega)]
    exact g3

theorem cstr_set_take (value v : List Nat) (hv : clean v) (h : v.length < value.length)
    (ht : value.take v.length = v) : cstr (value.set v.length 0) = v := by
  rw [cstr_set_zero value v.length h (by rw [ht]; exact nulFree_of_clean hv), ht]

/-- A line ended by CR LF, with the string left in `key`. -/
theorem parse_loop_line_key (k v rest : List Nat) (hk : clean k) (hv : clean v)
    (key value : List Nat) (list : Table) (hkl : k.length < key.length)
    (hvl : v.length < value.length) :
    ∃ key2 value2, key2.length = key.length ∧ value2.length = value.length ∧
      cstr key2 = k ∧
      parse_loop (k ++ 0x09 :: (v ++ 0x0d :: 0x0a :: rest)) ⟨0, 0, key, value, list⟩ =
        parse_loop rest ⟨0, 0, key2, value2, add_values list k v⟩ := by
  obtain ⟨key2, value2, h1, h2, h3, h4, h5⟩ :=
    parse_loop_pair_key k v (0x0d :: 0x0a :: rest) hk hv key value list hkl hvl
  refine ⟨key2, value2.set v.length 0, h1, by simpa using h2, h3, ?_⟩
  rw [h5, parse_loop_cr _ _ _ _ _ _ (by omega), parse_loop_lf]
  rw [add_values_congr list key2 k (value2.set v.length 0) v
    (by rw [h3, cstr_of_nulFree (nulFree_of_clean hk)])
    (by rw [cstr_set_take value2 v hv (by omega) h4, cstr_of_nulFree (nulFree_of_clean hv)])]

/-- Lines ended by CR LF are decoded in turn; the scanner is left in state Key at
position 0, and `key` holds the key of the last line. -/
theorem parse_loop_crlf (lines : List (List Nat × List Nat)) (rest key value : List Nat)
    (list : Table) (hclean : ∀ p ∈ lines, clean p.1 ∧ clean p.2)
    (hshort : ∀ p ∈ lines, p.1.length < key.length ∧ p.2.length < value.length) :
    ∃ key2 value2, key2.length = key.length ∧ value2.length = value.length ∧
      (∀ p, lines.getLast? = some p → cstr key2 = p.1) ∧
      (lines = [] → key2 = key) ∧
      parse_loop (lines_crlf lines ++ rest) ⟨0, 0, key, value, list⟩ =
        parse_loop rest ⟨0, 0, key2, value2, add_lines list lines⟩ := by
  induction lines generalizing key value list with
  | nil => exact ⟨key, value, rfl, rfl, by simp, fun _ => rfl, rfl⟩
  | cons p lines ih =>
    have hp := hclean p (by simp)
    have hs := hshort p (by simp)
    obtain ⟨key1, value1, h1, h2, h3, h4⟩ :=
      parse_loop_line_key p.1 p.2 (lines_crlf lines ++ rest) hp.1 hp.2 key value list hs.1 hs.2
    obtain ⟨key2, value2, g1, g2, g3, g4, g5⟩ := ih key1 value1 (add_values list p.1 p.2)
      (fun r hr => hclean r (by simp [hr]))
      (fun r hr => by rw [h1, h2]; exact hshort r (by simp [hr]))
    refine ⟨key2, value2, by rw [g1, h1], by rw [g2, h2], ?_, by simp, ?_⟩
    · intro q hq
      cases lines with
      | nil =>
        simp at hq
        rw [g4 rfl, h3, hq]
      | cons r lines =>
        apply g3
        simpa [List.getLast?_cons_cons] using hq
    · simp only [lines_crlf, List.append_assoc, List.cons_append]
      rw [h4, g5]
      rfl

/-- The result of `parse_block` on a block of clean lines, on any table. -/
theorem parse_block_lines (lines : List (List Nat × List Nat)) (hne : lines ≠ [])
    (key value rest : List Nat) (list : Table) (hkey : key.length = 255)
    (hvalue : value.length = 255) (hclean : ∀ p ∈ lines, clean p.1 ∧ clean p.2)
    (hshort : ∀ p ∈ lines, p.1.length < 255 ∧ p.2.length < 255) :
    parse_block key value list (block_of lines ++ 0 :: rest) = some (add_lines list lines) := by
  obtain ⟨s, h1, h2⟩ := parse_loop_block lines hne rest key value list hclean
    (by rw [hkey, hvalue]; exact hshort)
  unfold parse_block
  rw [h1, ← h2]
  rfl

/-- The result of `parse_block` on a block of clean lines, on the initial table. -/
theorem parse_block_bsolar (lines : List (List Nat × List Nat))
    (key value rest : List Nat) (hkey : key.length = 255)
    (hvalue : value.length = 255) (hclean : ∀ p ∈ lines, clean p.1 ∧ clean p.2)
    (hshort : ∀ p ∈ lines, p.1.length < 255 ∧ p.2.length < 255) :
    parse_block key value bsolar (block_of lines ++ 0 :: rest) =
      some (add_lines bsolar lines) := by
  by_cases hne : lines = []
  · subst hne
    unfold parse_block
    rw [show block_of [] ++ 0 :: rest = 0 :: rest from rfl,
      parse_loop_zero _ _ _ _ _ _ (by omega)]
    have hz : cstr (value.set 0 0) = [] := by
      cases value with
      | nil => simp at hvalue
      | cons a t => simp [cstr]
    simp only [Option.map_some', Option.some.injEq]
    funext i
    show add_values bsolar key (value.set 0 0) i = bsolar i
    unfold add_values
    rw [hz]
    split <;> rfl
  · exact parse_block_lines lines hne key value rest bsolar hkey hvalue hclean hshort

theorem last_value_absent (lines : List (List Nat × List Nat)) (c d : List Nat)
    (h : ∀ p ∈ lines, cstr p.1 ≠ c) : last_value lines c d = d := by
  induction lines generalizing d with
  | nil => rfl
  | cons p ps ih =>
    unfold last_value
    simp only [List.foldl_cons, if_neg (h p (by simp))]
    exact ih d (fun q hq => h q (by simp [hq]))

theorem last_value_append (l1 l2 : List (List Nat × List Nat)) (c d : List Nat) :
    last_value (l1 ++ l2) c d = last_value l2 c (last_value l1 c d) := by
  unfold last_value
  rw [List.foldl_append]

/-- The value left for a code is the given one for every start value, or the start value
itself for every start value. -/
theorem last_value_cases (lines : List (List Nat × List Nat)) (c : List Nat) :
    (∀ d e, last_value lines c d = last_value lines c e) ∨
      (∀ d, last_value lines c d = d) := by
  induction lines with
  | nil => exact Or.inr (fun _ => rfl)
  | cons p ps ih =>
    have hunf : ∀ d, last_value (p :: ps) c d =
        last_value ps c (if cstr p.1 = c then cstr p.2 else d) := fun _ => rfl
    by_cases hp : cstr p.1 = c
    · left
      intro d e
      rw [hunf, hunf, if_pos hp, if_pos hp]
    · rcases ih with h | h
      · left
        intro d e
        rw [hunf, hunf]
        exact h _ _
      · right
        intro d
        rw [hunf, if_neg hp]
        exact h d

theorem bsolar_code_clean : ∀ i : Fin 19,
    clean (bsolar i).code ∧ (bsolar i).code.length < 255 ∧ (bsolar i).code ≠ [] := by
  decide

/-- Decoding a block of clean lines from the initial table and converting: the entry with
index `i` is the conversion of the initial entry with the last value received for its
code. -/
theorem decode_entry (lines : List (List Nat × List Nat))
    (key value rest : List Nat) (hkey : key.length = 255)
    (hvalue : value.length = 255) (hclean : ∀ p ∈ lines, clean p.1 ∧ clean p.2)
    (hshort : ∀ p ∈ lines, p.1.length < 255 ∧ p.2.length < 255) :
    ∃ t, parse_block key value bsolar (block_of lines ++ 0 :: rest) = some t ∧
      ∀ i, t i = { bsolar i with val := last_value lines (bsolar i).code [] } ∧
        (convert_units t).1 i =
          conv_entry i { bsolar i with val := last_value lines (bsolar i).code [] } := by
  refine ⟨add_lines bsolar lines,
    parse_block_bsolar lines key value rest hkey hvalue hclean hshort, fun i => ?_⟩
  rw [convert_units_apply, add_lines_apply]
  exact ⟨rfl, rfl⟩

/-- The last value for a code is the value of the last line with that code. -/
theorem last_value_get (lines : List (List Nat × List Nat))
    (hclean : ∀ p ∈ lines, clean p.1 ∧ clean p.2) (c d : List Nat)
    (n : Nat) (hn : n < lines.length) (hkey : (lines.get ⟨n, hn⟩).1 = c)
    (hlater : ∀ m (hm : m < lines.length), n < m → (lines.get ⟨m, hm⟩).1 ≠ c) :
    last_value lines c d = (lines.get ⟨n, hn⟩).2 := by
  have h := (add_lines_spec lines hclean (fun _ => ⟨c, [], d, 0⟩) 0).2.1 n hn hkey hlater
  rw [add_lines_apply] at h
  exact h

/-! ## Claims C11 to C14: passthrough codes, absent codes, unknown codes -/

/-- C11 (fails on the code): for the lines "H21 TAB 75" and "H23 TAB 75W" the entries of
H21 and H23 after parse_block and convert_units have the raw strings 75 and 75W as val and
0 as base, not the number 75: convert_units assigns neither base nor val for these
codes. -/
theorem C11_h21_base_is_zero :
    ∃ t, parse_block (List.replicate 255 0) (List.replicate 255 0) bsolar
        (block_of lines_h21 ++ 0 :: []) = some t ∧
      (bsolar 9).code = bytes "H21" ∧ (bsolar 11).code = bytes "H23" ∧
      ((convert_units t).1 9).val = bytes "75" ∧
      ((convert_units t).1 9).base = 0 ∧ ((convert_units t).1 9).base ≠ 75 ∧
      ((convert_units t).1 11).val = bytes "75W" ∧
      ((convert_units t).1 11).base = 0 ∧ ((convert_units t).1 11).base ≠ 75 := by
  obtain ⟨t, h1, h2⟩ := decode_entry lines_h21 (List.replicate 255 0) (List.replicate 255 0) []
    (List.length_replicate 255 0) (List.length_replicate 255 0) (by decide) (by decide)
  have e9 : last_value lines_h21 (bsolar 9).code [] = bytes "75" := by decide
  have e11 : last_value lines_h21 (bsolar 11).code [] = bytes "75W" := by decide
  refine ⟨t, h1, by decide, by decide, ?_, ?_, ?_, ?_, ?_, ?_⟩
  · rw [(h2 9).2, e9]; simp [conv_entry]
  · rw [(h2 9).2]; simp [conv_entry, bsolar]
  · rw [(h2 9).2]; simp [conv_entry, bsolar]
  · rw [(h2 11).2, e11]; simp [conv_entry]
  · rw [(h2 11).2]; simp [conv_entry, bsolar]
  · rw [(h2 11).2]; simp [conv_entry, bsolar]

/-- C11 (amended): the codes without a rule are LOAD, Relay, H21, H23, ERR, SER#, HSDS and
Checksum. For each of them convert_units leaves the entry as parse_block made it: val is
the raw value of the last line with the code, as a string, and base is the 0 of the
initial table. -/
theorem C11_passthrough_unchanged (lines : List (List Nat × List Nat))
    (key value rest : List Nat) (hkey : key.length = 255) (hvalue : value.length = 255)
    (hclean : ∀ p ∈ lines, clean p.1 ∧ clean p.2)
    (hshort : ∀ p ∈ lines, p.1.length < 255 ∧ p.2.length < 255) :
    passthrough.map (fun i => (bsolar i).code) =
        [bytes "LOAD", bytes "Relay", bytes "H21", bytes "H23", bytes "ERR", bytes "SER#",
          bytes "HSDS", bytes "Checksum"] ∧
      ∃ t, parse_block key value bsolar (block_of lines ++ 0 :: rest) = some t ∧
        ∀ i ∈ passthrough,
          (convert_units t).1 i = t i ∧ ((convert_units t).1 i).base = 0 ∧
          (∀ n (hn : n < lines.length), (lines.get ⟨n, hn⟩).1 = (bsolar i).code →
            (∀ m (hm : m < lines.length), n < m →
              (lines.get ⟨m, hm⟩).1 ≠ (bsolar i).code) →
            ((convert_units t).1 i).val = (lines.get ⟨n, hn⟩).2) := by
  refine ⟨by decide, ?_⟩
  obtain ⟨t, h1, h2⟩ := decode_entry lines key value rest hkey hvalue hclean hshort
  refine ⟨t, h1, fun i hi => ?_⟩
  have hconv : ∀ f : fields, conv_entry i f = f := by
    intro f
    simp only [passthrough, List.mem_cons, List.mem_singleton, List.not_mem_nil,
      or_false] at hi
    rcases hi with h | h | h | h | h | h | h | h <;> subst h <;> simp [conv_entry]
  rw [(h2 i).2, hconv, (h2 i).1]
  refine ⟨rfl, rfl, fun n hn hk hl => ?_⟩
  exact last_value_get lines hclean _ _ n hn hk hl

/-- C11 (amended) at the block
"PID TAB 0xA042 CR LF H21 TAB 75 CR LF H23 TAB 75W CR LF Checksum TAB Z". -/
theorem C11_passthrough_unchanged_witness :
    passthrough.map (fun i => (bsolar i).code) =
        [bytes "LOAD", bytes "Relay", bytes "H21", bytes "H23", bytes "ERR", bytes "SER#",
          bytes "HSDS", bytes "Checksum"] ∧
      ∃ t, parse_block (List.replicate 255 0) (List.replicate 255 0) bsolar
          (block_of lines_h21 ++ 0 :: []) = some t ∧
        ∀ i ∈ passthrough,
          (convert_units t).1 i = t i ∧ ((convert_units t).1 i).base = 0 ∧
          (∀ n (hn : n < lines_h21.length), (lines_h21.get ⟨n, hn⟩).1 = (bsolar i).code →
            (∀ m (hm : m < lines_h21.length), n < m →
              (lines_h21.get ⟨m, hm⟩).1 ≠ (bsolar i).code) →
            ((convert_units t).1 i).val = (lines_h21.get ⟨n, hn⟩).2) :=
  C11_passthrough_unchanged lines_h21 (List.replicate 255 0) (List.replicate 255 0) []
    (List.length_replicate 255 0) (List.length_replicate 255 0) (by decide) (by decide)

theorem conv_values :
    atol [] = 0 ∧ atol (bytes "0") = 0 ∧ strtol [] 0 = 0 ∧ strtol (bytes "0") 0 = 0 ∧
      cs_val [] = bytes "Off" ∧ cs_val (bytes "0") = bytes "Off" ∧
      cs_val (bytes "Off") = bytes "Off" ∧ atol (bytes "Off") = 0 ∧
      atoi (bytes "Off") = 0 ∧ atoi [] = 0 ∧
      pid_name 0 = "*UNKNOWN*" ∧ strtol (bytes "*UNKNOWN*") 0 = 0 := by
  decide

/-- C12 (fails on the code): the block "PID TAB 0xA042 CR LF V TAB 12000 CR LF Checksum
TAB Z" has no line for CS. After parse_block and convert_units its CS entry is equal, in
code, label, val (Off) and base (0), to the CS entry of the same block with the line
"CS TAB 0" added. -/
theorem C12_cs_absent_equals_zero :
    ∃ t u, parse_block (List.replicate 255 0) (List.replicate 255 0) bsolar
        (block_of lines_no_cs ++ 0 :: []) = some t ∧
      parse_block (List.replicate 255 0) (List.replicate 255 0) bsolar
        (block_of lines_cs_zero ++ 0 :: []) = some u ∧
      (bsolar 13).code = bytes "CS" ∧
      (∀ p ∈ lines_no_cs, p.1 ≠ bytes "CS") ∧
      (convert_units t).1 13 = (convert_units u).1 13 ∧
      ((convert_units t).1 13).val = bytes "Off" ∧ ((convert_units t).1 13).base = 0 := by
  obtain ⟨t, h1, h2⟩ := decode_entry lines_no_cs (List.replicate 255 0)
    (List.replicate 255 0) [] (List.length_replicate 255 0) (List.length_replicate 255 0)
    (by decide) (by decide)
  obtain ⟨u, g1, g2⟩ := decode_entry lines_cs_zero (List.replicate 255 0)
    (List.replicate 255 0) [] (List.length_replicate 255 0) (List.length_replicate 255 0)
    (by decide) (by decide)
  have e1 : last_value lines_no_cs (bsolar 13).code [] = [] := by decide
  have e2 : last_value lines_cs_zero (bsolar 13).code [] = bytes "0" := by decide
  obtain ⟨c1, c2, -, -, c5, c6, -⟩ := conv_values
  refine ⟨t, u, h1, g1, by decide, by decide, ?_, ?_, ?_⟩
  · rw [(h2 13).2, (g2 13).2, e1, e2]
    simp [conv_entry, c1, c2, c5, c6]
  · rw [(h2 13).2, e1]
    simp [conv_entry, c5]
  · rw [(h2 13).2, e1]
    simp [conv_entry, c1]

/-- C12 (amended): for a block of clean lines without a line for the code `c` of entry
`i`, and the same block with the line `c TAB 0` added at any place: after parse_block and
convert_units both entries have base 0; for every code other than CS and PID the val is
empty in the first case and the string 0 in the second; for CS and PID the two entries
are equal. -/
theorem C12_absent_code (l1 l2 : List (List Nat × List Nat))
    (key value rest key2 value2 rest2 : List Nat)
    (hkey : key.length = 255) (hvalue : value.length = 255)
    (hkey2 : key2.length = 255) (hvalue2 : value2.length = 255)
    (hclean : ∀ p ∈ l1 ++ l2, clean p.1 ∧ clean p.2)
    (hshort : ∀ p ∈ l1 ++ l2, p.1.length < 255 ∧ p.2.length < 255)
    (i : Fin 19) (habs : ∀ p ∈ l1 ++ l2, p.1 ≠ (bsolar i).code) :
    ∃ t u, parse_block key value bsolar (block_of (l1 ++ l2) ++ 0 :: rest) = some t ∧
      parse_block key2 value2 bsolar
        (block_of (l1 ++ ((bsolar i).code, bytes "0") :: l2) ++ 0 :: rest2) = some u ∧
      ((convert_units t).1 i).base = 0 ∧ ((convert_units u).1 i).base = 0 ∧
      (i ≠ 13 → i ≠ 15 →
        ((convert_units t).1 i).val = [] ∧ ((convert_units u).1 i).val = bytes "0") ∧
      (i = 13 ∨ i = 15 → (convert_units t).1 i = (convert_units u).1 i) := by
  have hc := bsolar_code_clean i
  have hclean2 : ∀ p ∈ l1 ++ ((bsolar i).code, bytes "0") :: l2, clean p.1 ∧ clean p.2 := by
    intro p hp
    simp only [List.mem_append, List.mem_cons] at hp
    rcases hp with hp | hp | hp
    · exact hclean p (by simp [hp])
    · subst hp; exact ⟨hc.1, show clean (bytes "0") by decide⟩
    · exact hclean p (by simp [hp])
  have hshort2 : ∀ p ∈ l1 ++ ((bsolar i).code, bytes "0") :: l2,
      p.1.length < 255 ∧ p.2.length < 255 := by
    intro p hp
    simp only [List.mem_append, List.mem_cons] at hp
    rcases hp with hp | hp | hp
    · exact hshort p (by simp [hp])
    · subst hp; exact ⟨hc.2.1, show (bytes "0").length < 255 by decide⟩
    · exact hshort p (by simp [hp])
  obtain ⟨t, h1, h2⟩ := decode_entry (l1 ++ l2) key value rest hkey hvalue hclean hshort
  obtain ⟨u, g1, g2⟩ := decode_entry _ key2 value2 rest2 hkey2 hvalue2 hclean2 hshort2
  have hcs : ∀ p ∈ l1 ++ l2, cstr p.1 ≠ (bsolar i).code := by
    intro p hp
    rw [cstr_of_nulFree (nulFree_of_clean (hclean p hp).1)]
    exact habs p hp
  have e1 : last_value (l1 ++ l2) (bsolar i).code [] = [] := last_value_absent _ _ _ hcs
  have e2 : last_value (l1 ++ ((bsolar i).code, bytes "0") :: l2) (bsolar i).code [] =
      bytes "0" := by
    rw [last_value_append]
    have hunf : ∀ d, last_value (((bsolar i).code, bytes "0") :: l2) (bsolar i).code d =
        last_value l2 (bsolar i).code
          (if cstr (bsolar i).code = (bsolar i).code then cstr (bytes "0") else d) :=
      fun _ => rfl
    rw [hunf, if_pos (cstr_of_nulFree (nulFree_of_clean hc.1)),
      last_value_absent l2 _ _ (fun p hp => hcs p (by simp [hp]))]
    decide
  obtain ⟨c1, c2, c3, c4, c5, c6, -, -, -, -, c11, -⟩ := conv_values
  refine ⟨t, u, h1, g1, ?_, ?_, ?_, ?_⟩
  · rw [(h2 i).2, e1]
    fin_cases i <;> simp [conv_entry, c1, c3, bsolar]
  · rw [(g2 i).2, e2]
    fin_cases i <;> simp [conv_entry, c2, c4, bsolar]
  · intro h13 h15
    rw [(h2 i).2, (g2 i).2, e1, e2]
    fin_cases i <;> simp [conv_entry] at h13 h15 ⊢
  · intro h
    rw [(h2 i).2, (g2 i).2, e1, e2]
    rcases h with h | h <;> subst h <;> simp [conv_entry, c1, c2, c3, c4, c5, c6, c11]

/-- C12 (amended) at the block "PID TAB 0xA042 CR LF V TAB 12000 CR LF Checksum TAB Z"
and the code I, with the line "I TAB 0" added after the PID line. -/
theorem C12_absent_code_witness :
    ∃ t u, parse_block (List.replicate 255 0) (List.replicate 255 0) bsolar
        (block_of ([(bytes "PID", bytes "0xA042")] ++
          [(bytes "V", bytes "12000"), (bytes "Checksum", bytes "Z")]) ++ 0 :: []) = some t ∧
      parse_block (List.replicate 255 0) (List.replicate 255 0) bsolar
        (block_of ([(bytes "PID", bytes "0xA042")] ++ ((bsolar 3).code, bytes "0") ::
          [(bytes "V", bytes "12000"), (bytes "Checksum", bytes "Z")]) ++ 0 :: []) = some u ∧
      ((convert_units t).1 3).base = 0 ∧ ((convert_units u).1 3).base = 0 ∧
      ((3 : Fin 19) ≠ 13 → (3 : Fin 19) ≠ 15 →
        ((convert_units t).1 3).val = [] ∧ ((convert_units u).1 3).val = bytes "0") ∧
      ((3 : Fin 19) = 13 ∨ (3 : Fin 19) = 15 →
        (convert_units t).1 3 = (convert_units u).1 3) :=
  C12_absent_code [(bytes "PID", bytes "0xA042")]
    [(bytes "V", bytes "12000"), (bytes "Checksum", bytes "Z")]
    (List.replicate 255 0) (List.replicate 255 0) [] (List.replicate 255 0)
    (List.replicate 255 0) [] (List.length_replicate 255 0) (List.length_replicate 255 0)
    (List.length_replicate 255 0) (List.length_replicate 255 0) (by decide) (by decide) 3
    (by decide)

/-- Lines that are all ended by CR LF, followed by the NUL terminator: after the last
line the scanner is in state Key, and the NUL branch calls `add_values` once more, with
the key of the last line and the empty value. -/
theorem parse_block_crlf (lines : List (List Nat × List Nat)) (p : List Nat × List Nat)
    (hlast : lines.getLast? = some p) (key value rest : List Nat) (list : Table)
    (hkey : key.length = 255) (hvalue : value.length = 255)
    (hclean : ∀ q ∈ lines, clean q.1 ∧ clean q.2)
    (hshort : ∀ q ∈ lines, q.1.length < 255 ∧ q.2.length < 255) :
    parse_block key value list (lines_crlf lines ++ 0 :: rest) =
      some (add_values (add_lines list lines) p.1 []) := by
  obtain ⟨key2, value2, h1, h2, h3, -, h5⟩ := parse_loop_crlf lines (0 :: rest) key value list
    hclean (by rw [hkey, hvalue]; exact hshort)
  unfold parse_block
  rw [h5, parse_loop_zero _ _ _ _ _ _ (by omega)]
  have hz : cstr (value2.set 0 0) = cstr [] := by
    cases value2 with
    | nil => simp [hvalue] at h2
    | cons a t => simp [cstr]
  have hp : clean p.1 := (hclean p (List.mem_of_getLast?_eq_some hlast)).1
  simp only [Option.map_some', Option.some.injEq]
  exact add_values_congr _ _ _ _ _
    (by rw [h3 p hlast, cstr_of_nulFree (nulFree_of_clean hp)]) hz

set_option maxRecDepth 100000 in
/-- C13 (fails on the code): the block "V TAB 12000 CR LF XX TAB 1 CR LF I TAB 250 CR LF"
with NUL terminator has the unknown code XX between the known codes V and I. parse_block
stores 12000 under V, but leaves I with the empty value instead of 250: at the NUL it calls
add_values again with the key I that is still in the key buffer and an empty value. -/
theorem C13_last_crlf_line_is_erased :
    (∀ i : Fin 19, (bsolar i).code ≠ bytes "XX") ∧
      (bsolar 0).code = bytes "V" ∧ (bsolar 3).code = bytes "I" ∧
      block_unknown = lines_crlf [(bytes "V", bytes "12000"), (bytes "XX", bytes "1"),
        (bytes "I", bytes "250")] ++ 0 :: [] ∧
      (parse_block (List.replicate 255 0) (List.replicate 255 0) bsolar block_unknown).map
        (fun t => ((t 0).val, (t 3).val)) = some (bytes "12000", []) := by
  decide

/-- C14: a key that is none of the 19 codes leaves every entry of the table as it is. -/
theorem C14_unknown_key_discarded (list : Table) (key value : List Nat)
    (hcodes : ∀ i, (list i).code = (bsolar i).code)
    (hunknown : ∀ i, cstr key ≠ (bsolar i).code) :
    add_values list key value = list := by
  funext i
  unfold add_values
  rw [if_neg (by rw [hcodes i]; exact hunknown i)]

/-- C14 at the initial table and the key XX. -/
theorem C14_unknown_key_discarded_witness :
    add_values bsolar (bytes "XX") (bytes "1") = bsolar :=
  C14_unknown_key_discarded bsolar (bytes "XX") (bytes "1") (fun _ => rfl) (by decide)

/-! ## Claims C15 to C17: get_serial -/

theorem poll_serial_readbytes (sys : syscalls) (serbuf : List Nat) :
    ((poll_serial sys serbuf).readbytes < 100 ↔ bytes_captured sys < 100) := by
  unfold poll_serial bytes_captured
  by_cases h1 : sys.poll > 0
  · by_cases h2 : sys.pollrdnorm = true
    · rw [if_pos h1, if_pos h2, if_pos ⟨h1, h2⟩]
      cases sys.read with
      | none => simp
      | some data => simp only []; omega
    · rw [if_pos h1, if_neg h2, if_neg (fun h => h2 h.2)]
      simp
  · rw [if_neg h1, if_neg (fun h => h1 h.1)]
    simp

/-- C15: when the device opens as a tty, get_serial returns -1 when fewer than 100 bytes
were captured and 0 when 100 or more were captured; a poll timeout (poll returns 0)
captures 0 bytes and gives -1. -/
theorem C15_get_serial_return (sys : syscalls) (serbuf : List Nat) (hfd : sys.fd ≠ 0)
    (htty : sys.isatty = true) :
    (bytes_captured sys < 100 → (get_serial sys serbuf).ret = -1) ∧
      (100 ≤ bytes_captured sys → (get_serial sys serbuf).ret = 0) ∧
      (sys.poll = 0 → bytes_captured sys = 0 ∧ (get_serial sys serbuf).ret = -1) := by
  have hret : (get_serial sys serbuf).ret =
      if bytes_captured sys < 100 then -1 else 0 := by
    unfold get_serial
    simp only [if_neg hfd, htty, Bool.true_eq_false, if_false]
    by_cases h : bytes_captured sys < 100
    · rw [if_pos ((poll_serial_readbytes sys serbuf).mpr h), if_pos h]
    · rw [if_neg (fun g => h ((poll_serial_readbytes sys serbuf).mp g)), if_neg h]
  refine ⟨fun h => by rw [hret, if_pos h], fun h => by rw [hret, if_neg (by omega)], ?_⟩
  intro hp
  have h0 : bytes_captured sys = 0 := by
    unfold bytes_captured
    rw [if_neg (fun h => by have := h.1; omega)]
  exact ⟨h0, by rw [hret, if_pos (by omega)]⟩

/-- C15 at a run that captures 120 bytes. -/
theorem C15_get_serial_return_witness :
    (bytes_captured sys_full < 100 →
        (get_serial sys_full (List.replicate 512 0)).ret = -1) ∧
      (100 ≤ bytes_captured sys_full →
        (get_serial sys_full (List.replicate 512 0)).ret = 0) ∧
      (sys_full.poll = 0 →
        bytes_captured sys_full = 0 ∧ (get_serial sys_full (List.replicate 512 0)).ret = -1) :=
  C15_get_serial_return sys_full (List.replicate 512 0) (by decide) (by decide)

set_option maxRecDepth 100000 in
/-- C16 (fails on the code): in a run whose single read gives 29 bytes that hold the frame
"PID TAB 0xA042 CR LF CS TAB 3 CR LF Checksum TAB Z", get_serial returns -1 (fewer than
100 bytes), and main goes on all the same: the frame is located, decoded and converted,
and main exits with the status 3 of the charge state, not with -1. -/
theorem C16_get_serial_failure_is_dropped :
    bytes_captured sys_short = 29 ∧
      (get_serial sys_short (List.replicate 512 0)).ret = -1 ∧
      (main_locate (get_serial sys_short (List.replicate 512 0)).serbuf).map
        (fun f => (f.startpos, f.endpos)) = some (1, 19) ∧
      (main_run sys_short (List.replicate 255 0) (List.replicate 255 0)).map
        (fun o => (o.status, o.record.isSome, o.rrdstr.isSome)) = some (3, true, true) := by
  decide

set_option maxRecDepth 100000 in
/-- C17 (fails on the code): in a run that opens descriptor 3 and captures 120 bytes,
get_serial returns 0 and descriptor 3 is still open; the same holds on the path that
returns -1 because the device is no tty. -/
theorem C17_descriptor_left_open :
    (get_serial sys_full (List.replicate 512 0)).ret = 0 ∧
      (get_serial sys_full (List.replicate 512 0)).open_fds = [3] ∧
      (get_serial sys_notty (List.replicate 512 0)).ret = -1 ∧
      (get_serial sys_notty (List.replicate 512 0)).open_fds = [3] := by
  decide

/-- C17 (amended): get_serial never closes the descriptor. On every return path on which
open gave a descriptor (a value from 0 on), that descriptor and no other is open when
get_serial returns. -/
theorem C17_descriptor_never_closed (sys : syscalls) (serbuf : List Nat)
    (hopen : 0 ≤ sys.fd) : (get_serial sys serbuf).open_fds = [sys.fd] := by
  unfold get_serial
  simp only [if_pos hopen]
  split_ifs <;> rfl

/-- C17 (amended) at a run that captures 120 bytes with descriptor 3. -/
theorem C17_descriptor_never_closed_witness :
    (get_serial sys_full (List.replicate 512 0)).open_fds = [sys_full.fd] :=
  C17_descriptor_never_closed sys_full (List.replicate 512 0) (by decide)

/-! ## Claims C18 and C20: decoding twice, RRD string -/

/-- C20 (fails on the code): the block "PID TAB 0xA042 CR LF I TAB 250 CR LF Checksum TAB
Z" has no line for V, VPV, PPV, IL and CS. The values that create_rrdstr prints for the
table decoded from it are the numbers 0, 0.25, 0, 0, 0, 0: every field without a value is
the number 0, not U. -/
theorem C20_rrdstr_has_zero_not_u :
    (∀ p ∈ lines_only_i, p.1 ≠ bytes "V" ∧ p.1 ≠ bytes "CS") ∧
      ∃ t, parse_block (List.replicate 255 0) (List.replicate 255 0) bsolar
          (block_of lines_only_i ++ 0 :: []) = some t ∧
        create_rrdstr (convert_units t).1 = [0, 1 / 4, 0, 0, 0, 0] := by
  refine ⟨by decide, ?_⟩
  obtain ⟨t, h1, h2⟩ := decode_entry lines_only_i (List.replicate 255 0)
    (List.replicate 255 0) [] (List.length_replicate 255 0) (List.length_replicate 255 0)
    (by decide) (by decide)
  have e0 : last_value lines_only_i (bsolar 0).code [] = [] := by decide
  have e1 : last_value lines_only_i (bsolar 1).code [] = [] := by decide
  have e2 : last_value lines_only_i (bsolar 2).code [] = [] := by decide
  have e3 : last_value lines_only_i (bsolar 3).code [] = bytes "250" := by decide
  have e4 : last_value lines_only_i (bsolar 4).code [] = [] := by decide
  have e13 : last_value lines_only_i (bsolar 13).code [] = [] := by decide
  have a0 : atol [] = 0 := by decide
  have a3 : atol (bytes "250") = 250 := by decide
  refine ⟨t, h1, ?_⟩
  unfold create_rrdstr
  rw [(h2 0).2, (h2 1).2, (h2 2).2, (h2 3).2, (h2 4).2, (h2 13).2, e0, e1, e2, e3, e4, e13]
  simp [conv_entry, a0, a3]
  norm_num

theorem add_lines_append (list : Table) (l1 l2 : List (List Nat × List Nat)) :
    add_lines list (l1 ++ l2) = add_lines (add_lines list l1) l2 := by
  unfold add_lines
  rw [List.foldl_append]

theorem cstr_set_first (buf : List Nat) : cstr (buf.set 0 0) = cstr [] := by
  cases buf with
  | nil => rfl
  | cons a t => simp [cstr]

/-- The end `Checksum TAB b NUL` of a valid block, for every byte `b`. -/
theorem parse_loop_checksum (b : Nat) (rest key value : List Nat) (list : Table)
    (hkey : key.length = 255) (hvalue : value.length = 255) :
    ∃ r, parse_loop (bytes "Checksum" ++ 0x09 :: b :: 0 :: rest) ⟨0, 0, key, value, list⟩
        = some r ∧ r.list = add_lines list (checksum_pairs b) := by
  have hck : clean (bytes "Checksum") := by decide
  have hcl : (bytes "Checksum").length < key.length := by rw [hkey]; decide
  by_cases hb : b = 0x09 ∨ b = 0x0d ∨ b = 0x0a ∨ b = 0
  · obtain ⟨key2, value2, h1, h2, h3, -, h5⟩ :=
      parse_loop_pair_key (bytes "Checksum") [] (b :: 0 :: rest) hck (by decide) key value list
        hcl (by rw [hvalue]; decide)
    simp only [List.nil_append, List.length_nil] at h5
    rw [h5]
    have hc3 : cstr key2 = cstr (bytes "Checksum") := by
      rw [h3, cstr_of_nulFree (nulFree_of_clean hck)]
    rcases hb with hb | hb | hb | hb
    · subst hb
      rw [parse_loop_tab _ _ _ _ _ _ (by omega), parse_loop_zero _ _ _ _ _ _ (by omega)]
      refine ⟨_, rfl, ?_⟩
      show add_values list (key2.set 0 0) (value2.set 0 0) = add_values list [] []
      exact add_values_congr _ _ _ _ _ (cstr_set_first key2) (cstr_set_first value2)
    · subst hb
      rw [parse_loop_cr _ _ _ _ _ _ (by omega),
        parse_loop_zero _ _ _ _ _ _ (by simp; omega)]
      refine ⟨_, rfl, ?_⟩
      show add_values (add_values list key2 (value2.set 0 0)) key2 ((value2.set 0 0).set 0 0)
        = add_values (add_values list (bytes "Checksum") []) (bytes "Checksum") []
      rw [add_values_congr list key2 (bytes "Checksum") (value2.set 0 0) [] hc3
        (cstr_set_first value2)]
      exact add_values_congr _ _ _ _ _ hc3 (cstr_set_first _)
    · subst hb
      rw [parse_loop_lf, parse_loop_zero _ _ _ _ _ _ (by omega)]
      refine ⟨_, rfl, ?_⟩
      show add_values list key2 (value2.set 0 0) = add_values list (bytes "Checksum") []
      exact add_values_congr _ _ _ _ _ hc3 (cstr_set_first value2)
    · subst hb
      rw [parse_loop_zero _ _ _ _ _ _ (by omega)]
      refine ⟨_, rfl, ?_⟩
      show add_values list key2 (value2.set 0 0) = add_values list (bytes "Checksum") []
      exact add_values_congr _ _ _ _ _ hc3 (cstr_set_first value2)
  · have hb9 : b ≠ 0x09 := fun h => hb (Or.inl h)
    have hbd : b ≠ 0x0d := fun h => hb (Or.inr (Or.inl h))
    have hba : b ≠ 0x0a := fun h => hb (Or.inr (Or.inr (Or.inl h)))
    have hb0 : b ≠ 0 := fun h => hb (Or.inr (Or.inr (Or.inr h)))
    have hcb : clean [b] := by
      intro c hc
      simp only [List.mem_singleton] at hc
      subst hc
      exact ⟨hb9, hbd, hba, hb0⟩
    obtain ⟨key2, value2, h⟩ := parse_loop_last (bytes "Checksum") [b] rest hck hcb key value
      list hcl (by rw [hvalue]; simp)
    refine ⟨_, h, ?_⟩
    show add_values list (bytes "Checksum") [b] = add_lines list (checksum_pairs b)
    unfold checksum_pairs
    rw [if_neg hb9, if_neg hbd, if_neg (fun h => h.elim hba hb0)]
    rfl

/-- The result of `parse_block` on a valid block, on any table: the lines in turn, then
the calls for the end of the block. -/
theorem parse_block_valid (v : List Nat) (mid : List (List Nat × List Nat)) (b : Nat)
    (key value rest : List Nat) (list : Table) (hkey : key.length = 255)
    (hvalue : value.length = 255) (hv : clean v ∧ v.length < 255)
    (hclean : ∀ p ∈ mid, clean p.1 ∧ clean p.2)
    (hshort : ∀ p ∈ mid, p.1.length < 255 ∧ p.2.length < 255) :
    parse_block key value list (valid_block v mid b ++ 0 :: rest) =
      some (add_lines list (((bytes "PID", v) :: mid) ++ checksum_pairs b)) := by
  obtain ⟨key2, value2, h1, h2, -, -, h5⟩ :=
    parse_loop_crlf ((bytes "PID", v) :: mid)
      (bytes "Checksum" ++ 0x09 :: b :: 0 :: rest) key value list
      (by
        intro p hp
        simp only [List.mem_cons] at hp
        rcases hp with hp | hp
        · subst hp; exact ⟨show clean (bytes "PID") by decide, hv.1⟩
        · exact hclean p hp)
      (by
        intro p hp
        rw [hkey, hvalue]
        simp only [List.mem_cons] at hp
        rcases hp with hp | hp
        · subst hp; exact ⟨show (bytes "PID").length < 255 by decide, hv.2⟩
        · exact hshort p hp)
  obtain ⟨r, g1, g2⟩ := parse_loop_checksum b rest key2 value2
    (add_lines list ((bytes "PID", v) :: mid)) (by rw [h1, hkey]) (by rw [h2, hvalue])
  have hblock : valid_block v mid b ++ 0 :: rest =
      lines_crlf ((bytes "PID", v) :: mid) ++ (bytes "Checksum" ++ 0x09 :: b :: 0 :: rest) := by
    unfold valid_block
    simp [List.append_assoc]
  unfold parse_block
  rw [hblock, h5, g1, add_lines_append, ← g2]
  rfl

theorem conv_entry_code (i : Fin 19) (f : fields) : (conv_entry i f).code = f.code := by
  unfold conv_entry
  split_ifs <;> rfl

/-- Converting again after the raw value has been stored again changes nothing. -/
theorem conv_entry_again (i : Fin 19) (g : fields) :
    conv_entry i { conv_entry i g with val := g.val } = conv_entry i g := by
  fin_cases i <;> simp [conv_entry]

/-- Converting an entry with the empty value twice gives the same as converting it once. -/
theorem conv_entry_empty (i : Fin 19) (g : fields) (hg : g.val = []) :
    conv_entry i (conv_entry i g) = conv_entry i g := by
  obtain ⟨c1, -, c3, -, c5, -, c7, c8, -, -, c11, c12⟩ := conv_values
  fin_cases i <;> simp [conv_entry, hg, c1, c3, c5, c7, c8, c11, c12]

/-- Decoding and converting a second time, with the same calls of `add_values`, gives the
table and the retcode of the first time. -/
theorem convert_add_lines_twice (lines : List (List Nat × List Nat)) :
    convert_units (add_lines (convert_units (add_lines bsolar lines)).1 lines) =
      convert_units (add_lines bsolar lines) := by
  have val0 : ∀ i, (add_lines bsolar lines i).val = last_value lines (bsolar i).code [] := by
    intro i; rw [add_lines_apply]; rfl
  have code0 : ∀ i, (add_lines bsolar lines i).code = (bsolar i).code := by
    intro i; rw [add_lines_apply]
  generalize add_lines bsolar lines = T0 at val0 code0 ⊢
  have key : ∀ i, add_lines (convert_units T0).1 lines i =
      { conv_entry i (T0 i) with
        val := last_value lines (bsolar i).code (conv_entry i (T0 i)).val } := by
    intro i
    rw [add_lines_apply, convert_units_apply, conv_entry_code, code0]
  have again : ∀ i, conv_entry i (add_lines (convert_units T0).1 lines i) =
      conv_entry i (T0 i) := by
    intro i
    rw [key]
    rcases last_value_cases lines (bsolar i).code with h | h
    · rw [h (conv_entry i (T0 i)).val [], ← val0]
      exact conv_entry_again i (T0 i)
    · rw [h]
      exact conv_entry_empty i (T0 i) (by rw [val0, h])
  apply Prod.ext
  · funext i
    rw [convert_units_apply, convert_units_apply]
    exact again i
  · rw [convert_units_retcode, convert_units_retcode, key]
    show atoi (last_value lines (bsolar 13).code (conv_entry 13 (T0 13)).val) =
      atoi (T0 13).val
    rcases last_value_cases lines (bsolar 13).code with h | h
    · rw [h (conv_entry 13 (T0 13)).val [], ← val0]
    · have e0 : (T0 13).val = [] := by rw [val0, h]
      have c13 : (conv_entry 13 (T0 13)).val = cs_val (T0 13).val := by
        simp [conv_entry]
      rw [h, c13, e0]
      decide

/-- C18: for every valid block (a line `PID TAB v`, further lines, each ended by CR LF,
then `Checksum TAB` and one byte of any value, then the NUL terminator), starting from
the initial table: parse_block and convert_units, run a second time on the same block and
on the table left by the first run, give the same table (every member of every entry)
and the same retcode as the first run. The contents of the local arrays of parse_block
may differ between the two runs. -/
theorem C18_decode_twice (v : List Nat) (mid : List (List Nat × List Nat)) (b : Nat)
    (key value key2 value2 rest : List Nat)
    (hkey : key.length = 255) (hvalue : value.length = 255)
    (hkey2 : key2.length = 255) (hvalue2 : value2.length = 255)
    (hv : clean v ∧ v.length < 255)
    (hclean : ∀ p ∈ mid, clean p.1 ∧ clean p.2)
    (hshort : ∀ p ∈ mid, p.1.length < 255 ∧ p.2.length < 255) :
    ∃ t u, parse_block key value bsolar (valid_block v mid b ++ 0 :: rest) = some t ∧
      parse_block key2 value2 (convert_units t).1 (valid_block v mid b ++ 0 :: rest)
        = some u ∧
      convert_units u = convert_units t :=
  ⟨_, _, parse_block_valid v mid b key value rest bsolar hkey hvalue hv hclean hshort,
    parse_block_valid v mid b key2 value2 rest _ hkey2 hvalue2 hv hclean hshort,
    convert_add_lines_twice _⟩

/-- C18 at the block "PID TAB 0xA042 CR LF V TAB 12000 CR LF CS TAB 3 CR LF Checksum TAB
Z". -/
theorem C18_decode_twice_witness :
    ∃ t u, parse_block (List.replicate 255 0) (List.replicate 255 0) bsolar
        (valid_block (bytes "0xA042") [(bytes "V", bytes "12000"), (bytes "CS", bytes "3")]
          0x5a ++ 0 :: []) = some t ∧
      parse_block (List.replicate 255 1) (List.replicate 255 1) (convert_units t).1
        (valid_block (bytes "0xA042") [(bytes "V", bytes "12000"), (bytes "CS", bytes "3")]
          0x5a ++ 0 :: []) = some u ∧
      convert_units u = convert_units t :=
  C18_decode_twice (bytes "0xA042") [(bytes "V", bytes "12000"), (bytes "CS", bytes "3")]
    0x5a (List.replicate 255 0) (List.replicate 255 0) (List.replicate 255 1)
    (List.replicate 255 1) [] (List.length_replicate 255 0) (List.length_replicate 255 0)
    (List.length_replicate 255 1) (List.length_replicate 255 1) (by decide) (by decide)
    (by decide)

/-! ## Claims C21, C29 and C30: getspa, poll_serial, momimax -/

/-- C21 (fails on the code): main of getspa.c never returns 1 and never returns -1 for an
error of the calculation. For a time stamp in the night (2 o'clock, sunrise 6, sunset 18)
it returns 0, and for the SPA error code 1 it returns 0 too; this holds for every run
without the option -f. -/
theorem C21_getspa_returns_zero :
    (spa_night.hour < spa_night.sunrise ∧ spa_night.result = 0 ∧
        getspa_main spa_night 0 true = 0) ∧
      (spa_error.result ≠ 0 ∧ getspa_main spa_error 0 true = 0) ∧
      (∀ run fopen_ok, getspa_main run 0 fopen_ok = 0) ∧
      (∀ run outflag fopen_ok, getspa_main run outflag fopen_ok ≠ 1) := by
  refine ⟨⟨by norm_num [spa_night], rfl, rfl⟩, ⟨by decide, rfl⟩, fun _ _ => rfl, ?_⟩
  intro run outflag fopen_ok
  unfold getspa_main
  split <;> decide

set_option maxRecDepth 100000 in
/-- C29 (fails on the code): when the single read fills all 512 bytes, poll_serial writes
the NUL at index 512, one past the end of the 512-byte serbuf; when the read fails with
-1 it writes the NUL at index -1. -/
theorem C29_nul_written_outside_serbuf :
    (List.replicate 512 0).length = 512 ∧
      (poll_serial sys_512 (List.replicate 512 0)).readbytes = 512 ∧
      (poll_serial sys_512 (List.replicate 512 0)).nulpos = some 512 ∧
      (poll_serial sys_readerr (List.replicate 512 0)).readbytes = -1 ∧
      (poll_serial sys_readerr (List.replicate 512 0)).nulpos = some (-1) := by
  decide

/-- The bound of the summation loop for a range of at least one day, when the product
fits the `unsigned long`: one row less than the whole days of the range. -/
theorem loop_bound_of_day (w : Nat) (tstart tend : Int) (ds_cnt : Nat)
    (hday : 86400 ≤ tend - tstart)
    (hfit : (Int.tdiv (tend - tstart) 86400).toNat * ds_cnt < 2 ^ w) (hds : 1 ≤ ds_cnt) :
    loop_bound w tstart tend ds_cnt = ((Int.tdiv (tend - tstart) 86400).toNat - 1) * ds_cnt ∧
      loop_bound w tstart tend ds_cnt ≤ (Int.tdiv (tend - tstart) 86400).toNat * ds_cnt := by
  have hq : 1 ≤ Int.tdiv (tend - tstart) 86400 := by
    rw [Int.tdiv_eq_ediv (by omega) (by omega)]
    omega
  obtain ⟨d, hd⟩ : ∃ d : Nat, Int.tdiv (tend - tstart) 86400 = (d : Int) :=
    ⟨(Int.tdiv (tend - tstart) 86400).toNat, by omega⟩
  rw [hd] at hq hfit ⊢
  simp only [Int.toNat_ofNat] at hfit ⊢
  have hd1 : 1 ≤ d := by omega
  have hle : (d - 1) * ds_cnt ≤ d * ds_cnt := Nat.mul_le_mul_right _ (by omega)
  have hdlt : d < 2 ^ w := lt_of_le_of_lt (Nat.le_mul_of_pos_right d (by omega)) hfit
  have hb : loop_bound w tstart tend ds_cnt = (d - 1) * ds_cnt := by
    unfold loop_bound days
    rw [hd]
    have e1 : ((d : Int) - 1) % (2 : Int) ^ w = ((d - 1 : Nat) : Int) := by
      have : ((d : Int) - 1) = ((d - 1 : Nat) : Int) := by omega
      rw [this]
      apply Int.emod_eq_of_lt (by omega)
      have : ((2 : Int) ^ w) = ((2 ^ w : Nat) : Int) := by norm_cast
      rw [this]
      omega
    rw [e1, Int.toNat_ofNat]
    exact Nat.mod_eq_of_lt (lt_of_le_of_lt hle hfit)
  exact ⟨hb, by rw [hb]; exact hle⟩

/-- C30 (fails on the code): for the range tstart = 0, tend = 36000 (ten hours, shorter
than one day) and ds_cnt = 6, days is -1 and the bound days*ds_cnt of the loop, taken in
unsigned long arithmetic, is 2^64 - 6 for 64 bits and 2^32 - 6 for 32 bits: not at most
(36000/86400)*6 = 0, so the loop body runs. -/
theorem C30_loop_bound_wraps :
    days 0 36000 = -1 ∧
      loop_bound 64 0 36000 6 = 2 ^ 64 - 6 ∧
      loop_bound 32 0 36000 6 = 2 ^ 32 - 6 ∧
      (Int.tdiv (36000 - 0) 86400).toNat * 6 = 0 ∧
      ¬ loop_bound 64 0 36000 6 ≤ (Int.tdiv (36000 - 0) 86400).toNat * 6 ∧
      ¬ loop_bound 32 0 36000 6 ≤ (Int.tdiv (36000 - 0) 86400).toNat * 6 := by
  decide

/-! ## Claims C22 to C24: the scanner of parse_block -/

/-- The loop of `parse_block` is the iterations before the NUL, followed by the branch
for the NUL. -/
theorem parse_loop_eq_steps (block : List Nat) (s : scan) :
    parse_loop block s = (parse_steps block s).bind parse_nul := by
  induction block generalizing s with
  | nil => rfl
  | cons b t ih =>
    unfold parse_loop parse_steps
    split_ifs <;> simp [Option.bind_assoc, ih]

set_option maxRecDepth 100000 in
/-- C22 (fails on the code): in the block "V TAB 12000 CR LF" the NUL terminator is
reached in state Key (keyflag 0) with 12000 stored under V, but after parse_block the
value of V is empty: the branch for the NUL calls add_values with the key V that is still
in the key buffer and an empty value. -/
theorem C22_nul_in_state_key_emits_pair :
    (parse_steps block_line ⟨0, 0, List.replicate 255 0, List.replicate 255 0, bsolar⟩).map
        (fun s => (s.keyflag, (s.list 0).val)) = some (0, bytes "12000") ∧
      (parse_block (List.replicate 255 0) (List.replicate 255 0) bsolar block_line).map
        (fun t => (t 0).val) = some [] := by
  decide

/-- Writing a NUL into a buffer cuts the string it holds at that offset. -/
theorem cstr_set_cut (l : List Nat) (n : Nat) : cstr (l.set n 0) = (cstr l).take n := by
  induction l generalizing n with
  | nil => simp [cstr]
  | cons x t ih =>
    cases n with
    | zero => simp [cstr]
    | succ n =>
      have := ih n
      unfold cstr at this ⊢
      rw [List.set_cons_succ, List.takeWhile_cons, List.takeWhile_cons]
      split
      · rw [List.take_succ_cons, this]
      · rfl

set_option maxRecDepth 100000 in
/-- C23, counterexample: in the block "V TAB 12 TAB 34 CR LF I TAB 5" parse_block stores
under V the value 34, not 12 TAB 34. -/
theorem C23_value_with_tab_is_restarted :
    (parse_block (List.replicate 255 0) (List.replicate 255 0) bsolar block_two_tabs).map
        (fun t => (t 0).val) = some (bytes "34") ∧
      bytes "34" ≠ bytes "12\t34" := by
  decide

/-- The iterations over a NUL-free prefix and then over the rest. -/
theorem parse_steps_append (xs ys : List Nat) (s : scan) (h : nulFree xs) :
    parse_steps (xs ++ ys) s = (parse_steps xs s).bind (parse_steps ys) := by
  induction xs generalizing s with
  | nil => simp [parse_steps]
  | cons b t ih =>
    have hb : b ≠ 0 := h b (by simp)
    have ht : nulFree t := fun c hc => h c (by simp [hc])
    simp only [List.cons_append, parse_steps]
    split_ifs <;> simp [ih _ ht, Option.bind_assoc]

/-- The loop of `parse_block` over a NUL-free prefix and the rest of the block. -/
theorem parse_loop_append (xs rest : List Nat) (s : scan) (h : nulFree xs) :
    parse_loop (xs ++ rest) s = (parse_steps xs s).bind (parse_loop rest) := by
  rw [parse_loop_eq_steps, parse_steps_append xs rest s h, Option.bind_assoc]
  congr 1
  funext s2
  rw [parse_loop_eq_steps]

/-- In state Key the bytes of a clean string go into `key` from `linepos` on. -/
theorem parse_steps_key (k : List Nat) (hk : clean k) (lp : Nat) (key value : List Nat)
    (list : Table) (hlen : lp + k.length ≤ key.length) :
    ∃ key2, key2.length = key.length ∧ key2.take (lp + k.length) = key.take lp ++ k ∧
      parse_steps k ⟨0, lp, key, value, list⟩ =
        some ⟨0, lp + k.length, key2, value, list⟩ := by
  induction k generalizing lp key with
  | nil => exact ⟨key, rfl, by simp, by simp [parse_steps]⟩
  | cons c k ih =>
    have hc := hk c (by simp)
    have hk2 : clean k := fun d hd => hk d (by simp [hd])
    simp only [List.length_cons] at hlen
    obtain ⟨key2, h1, h2, h3⟩ := ih hk2 (lp + 1) (key.set lp c) (by simp; omega)
    have e : lp + (c :: k).length = lp + 1 + k.length := by simp; omega
    refine ⟨key2, by simpa using h1, ?_, ?_⟩
    · rw [e, h2, take_set_succ key lp c (by omega)]
      simp
    · rw [e, ← h3, parse_steps]
      simp [hc.1, hc.2.1, hc.2.2.1, hc.2.2.2, poke, show lp < key.length by omega]

/-- In state Value the bytes of a clean string go into `value` from `linepos` on. -/
theorem parse_steps_value (v : List Nat) (hv : clean v) (lp : Nat) (key value : List Nat)
    (list : Table) (hlen : lp + v.length ≤ value.length) :
    ∃ value2, value2.length = value.length ∧
      value2.take (lp + v.length) = value.take lp ++ v ∧
      parse_steps v ⟨1, lp, key, value, list⟩ =
        some ⟨1, lp + v.length, key, value2, list⟩ := by
  induction v generalizing lp value with
  | nil => exact ⟨value, rfl, by simp, by simp [parse_steps]⟩
  | cons c v ih =>
    have hc := hv c (by simp)
    have hv2 : clean v := fun d hd => hv d (by simp [hd])
    simp only [List.length_cons] at hlen
    obtain ⟨value2, h1, h2, h3⟩ := ih hv2 (lp + 1) (value.set lp c) (by simp; omega)
    have e : lp + (c :: v).length = lp + 1 + v.length := by simp; omega
    refine ⟨value2, by simpa using h1, ?_, ?_⟩
    · rw [e, h2, take_set_succ value lp c (by omega)]
      simp
    · rw [e, ← h3, parse_steps]
      simp [hc.1, hc.2.1, hc.2.2.1, hc.2.2.2, poke, show lp < value.length by omega]

theorem parse_steps_tab (block : List Nat) (kf lp : Nat) (key value : List Nat)
    (list : Table) (h : lp < key.length) :
    parse_steps (0x09 :: block) ⟨kf, lp, key, value, list⟩ =
      parse_steps block ⟨1, 0, key.set lp 0, value, list⟩ := by
  simp [parse_steps, poke, h]

theorem parse_steps_cr (block : List Nat) (kf lp : Nat) (key value : List Nat)
    (list : Table) (h : lp < value.length) :
    parse_steps (0x0d :: block) ⟨kf, lp, key, value, list⟩ =
      parse_steps block ⟨0, 0, key, value.set lp 0, add_values list key (value.set lp 0)⟩ := by
  simp [parse_steps, poke, h]

/-- The scanner over the line k TAB a TAB b CR: the second TAB cuts the key at the length
of a and restarts the value. -/
theorem parse_steps_two_tabs (k a b key value : List Nat) (list : Table)
    (hk : clean k) (ha : clean a) (hb : clean b)
    (hkl : k.length < key.length) (hal : a.length < key.length)
    (hav : a.length < value.length) (hbl : b.length < value.length) :
    ∃ key2 value2, key2.length = key.length ∧ value2.length = value.length ∧
      parse_steps (k ++ 0x09 :: (a ++ 0x09 :: (b ++ [0x0d]))) ⟨0, 0, key, value, list⟩ =
        some ⟨0, 0, key2, value2, add_values list (k.take a.length) b⟩ := by
  obtain ⟨key1, h1, h2, h3⟩ := parse_steps_key k hk 0 key value list (by omega)
  simp only [Nat.zero_add, List.take_zero, List.nil_append] at h2 h3
  obtain ⟨value1, g1, -, g3⟩ :=
    parse_steps_value a ha 0 (key1.set k.length 0) value list (by omega)
  simp only [Nat.zero_add] at g3
  obtain ⟨value2, f1, f2, f3⟩ :=
    parse_steps_value b hb 0 ((key1.set k.length 0).set a.length 0) value1 list (by omega)
  simp only [Nat.zero_add, List.take_zero, List.nil_append] at f2 f3
  refine ⟨(key1.set k.length 0).set a.length 0, value2.set b.length 0, by simpa using h1,
    by simp [f1, g1], ?_⟩
  rw [parse_steps_append _ _ _ (nulFree_of_clean hk), h3, Option.some_bind,
    parse_steps_tab _ _ _ _ _ _ (by omega),
    parse_steps_append _ _ _ (nulFree_of_clean ha), g3, Option.some_bind,
    parse_steps_tab _ _ _ _ _ _ (by simp; omega),
    parse_steps_append _ _ _ (nulFree_of_clean hb), f3, Option.some_bind,
    parse_steps_cr _ _ _ _ _ _ (by omega)]
  have hcut : clean (k.take a.length) := fun c hc => hk c (List.mem_of_mem_take hc)
  rw [add_values_congr list ((key1.set k.length 0).set a.length 0) (k.take a.length)
    (value2.set b.length 0) b
    (by rw [cstr_set_cut, cstr_set_zero key1 k.length (by omega)
          (by rw [h2]; exact nulFree_of_clean hk), h2,
          cstr_of_nulFree (nulFree_of_clean hcut)])
    (by rw [cstr_set_take value2 b hb (by omega) f2, cstr_of_nulFree (nulFree_of_clean hb)])]
  rfl

/-- C23, amended: for a value part a at least as long as the code k, decoding the line
k TAB a TAB b CR stores the value b under k: a TAB in state Value restarts the value. The
scanner is in state Key after the line, and decoding a block that starts with the line is
decoding the rest of the block from the table with that pair added. -/
theorem C23_tab_restarts_value (k a b key value : List Nat) (list : Table)
    (hk : clean k) (ha : clean a) (hb : clean b)
    (hkey : key.length = 255) (hvalue : value.length = 255)
    (hal : a.length < 255) (hbl : b.length < 255) (hka : k.length ≤ a.length) :
    ∃ key2 value2, key2.length = 255 ∧ value2.length = 255 ∧
      parse_steps (k ++ 0x09 :: (a ++ 0x09 :: (b ++ [0x0d]))) ⟨0, 0, key, value, list⟩ =
        some ⟨0, 0, key2, value2, add_values list k b⟩ ∧
      ∀ rest,
        parse_block key value list ((k ++ 0x09 :: (a ++ 0x09 :: (b ++ [0x0d]))) ++ rest) =
          (parse_loop rest ⟨0, 0, key2, value2, add_values list k b⟩).map scan.list := by
  obtain ⟨key2, value2, h1, h2, h3⟩ := parse_steps_two_tabs k a b key value list hk ha hb
    (by omega) (by omega) (by omega) (by omega)
  rw [List.take_of_length_le hka] at h3
  refine ⟨key2, value2, by omega, by omega, h3, fun rest => ?_⟩
  have hline : nulFree (k ++ 0x09 :: (a ++ 0x09 :: (b ++ [0x0d]))) := by
    intro c hc
    simp only [List.mem_append, List.mem_cons, List.mem_singleton, List.not_mem_nil,
      or_false] at hc
    rcases hc with hc | hc | hc | hc | hc | hc
    · exact nulFree_of_clean hk c hc
    · omega
    · exact nulFree_of_clean ha c hc
    · omega
    · exact nulFree_of_clean hb c hc
    · omega
  unfold parse_block
  rw [parse_loop_append _ _ _ hline, h3, Option.some_bind]

set_option maxRecDepth 100000 in
/-- C23 (amended) at the line "V TAB 12 TAB 34 CR" and the initial table: the value 34 is
stored under V. -/
theorem C23_tab_restarts_value_witness :
    ∃ key2 value2, key2.length = 255 ∧ value2.length = 255 ∧
      parse_steps (bytes "V" ++ 0x09 :: (bytes "12" ++ 0x09 :: (bytes "34" ++ [0x0d])))
          ⟨0, 0, List.replicate 255 0, List.replicate 255 0, bsolar⟩ =
        some ⟨0, 0, key2, value2, add_values bsolar (bytes "V") (bytes "34")⟩ ∧
      ∀ rest,
        parse_block (List.replicate 255 0) (List.replicate 255 0) bsolar
            ((bytes "V" ++ 0x09 :: (bytes "12" ++ 0x09 :: (bytes "34" ++ [0x0d]))) ++ rest) =
          (parse_loop rest ⟨0, 0, key2, value2,
            add_values bsolar (bytes "V") (bytes "34")⟩).map scan.list :=
  C23_tab_restarts_value (bytes "V") (bytes "12") (bytes "34") (List.replicate 255 0)
    (List.replicate 255 0) bsolar (by decide) (by decide) (by decide)
    (List.length_replicate 255 0) (List.length_replicate 255 0)
    (by decide) (by decide) (by decide)

/-- C24: parse_block yields the same table on a block as on the block with all LF bytes
removed; an LF byte leaves the scanner, in every state, as it is. -/
theorem C24_lf_is_ignored :
    (∀ (block : List Nat) (s : scan), parse_loop (0x0a :: block) s = parse_loop block s) ∧
      ∀ (key value : List Nat) (list : Table) (block : List Nat),
        parse_block key value list (block.filter (fun c => c != 0x0a)) =
          parse_block key value list block := by
  refine ⟨fun block s => by simp [parse_loop], fun key value list block => ?_⟩
  have h : ∀ (block : List Nat) (s : scan),
      parse_loop (block.filter (fun c => c != 0x0a)) s = parse_loop block s := by
    intro block
    induction block with
    | nil => intro s; rfl
    | cons b t ih =>
      intro s
      by_cases hb : b = 0x0a
      · subst hb
        rw [parse_loop_lf, ← ih s]
        rfl
      · rw [List.filter_cons_of_pos (by simpa using hb)]
        rw [parse_loop, parse_loop]
        split_ifs <;> simp [ih]
  unfold parse_block
  rw [h]

/-! ## Claims C25 to C28: frame location, product id, block copy, strstr_last -/

/-- The frame location on a NUL-free capture E b1 X S Y E b2 with no start marker after
S and no end marker after the second E: the start offset is at S and the end offset at the
second E. -/
theorem main_locate_pair (b1 b2 : Nat) (X Y : List Nat)
    (hnul : nulFree (capture_pair b1 b2 X Y))
    (hS : ∀ p, occursAt (capture_pair b1 b2 X Y) startstring p → p ≤ 10 + X.length)
    (hE : ∀ p, occursAt (capture_pair b1 b2 X Y) endstring p →
      p ≤ 14 + X.length + Y.length) :
    main_locate (capture_pair b1 b2 X Y) =
      some ⟨10 + X.length, 14 + X.length + Y.length, capture_pair b1 b2 X Y⟩ := by
  have hE9 : endstring.length = 9 := rfl
  have hS4 : startstring.length = 4 := rfl
  have hlen : (capture_pair b1 b2 X Y).length = 24 + X.length + Y.length := by
    simp only [capture_pair, List.length_append, List.length_cons, List.length_nil, hE9, hS4]
    omega
  have hoS : occursAt (capture_pair b1 b2 X Y) startstring (10 + X.length) := by
    have := occursAt_append (endstring ++ [b1] ++ X) startstring (Y ++ endstring ++ [b2])
    have e : (endstring ++ [b1] ++ X).length = 10 + X.length := by
      simp only [List.length_append, List.length_cons, List.length_nil, hE9]
    rw [e] at this
    simpa [capture_pair, List.append_assoc] using this
  have hoE : occursAt (capture_pair b1 b2 X Y) endstring (14 + X.length + Y.length) := by
    have := occursAt_append (endstring ++ [b1] ++ X ++ startstring ++ Y) endstring [b2]
    have e : (endstring ++ [b1] ++ X ++ startstring ++ Y).length
        = 14 + X.length + Y.length := by
      simp only [List.length_append, List.length_cons, List.length_nil, hE9, hS4]; omega
    rw [e] at this
    exact this
  have h1 : strstr_last (capture_pair b1 b2 X Y) startstring = some (10 + X.length) := by
    rw [strstr_last_some _ _ nulFree_startstring (by decide)]
    refine ⟨by omega, ?_, hoS, fun q hq _ hocc => ?_⟩
    · rw [strlen_of_nulFree hnul, hlen, hS4]; omega
    · have := hS q hocc; omega
  have h2 : strstr_last (capture_pair b1 b2 X Y) endstring
      = some (14 + X.length + Y.length) := by
    rw [strstr_last_some _ _ nulFree_endstring (by decide)]
    refine ⟨by omega, ?_, hoE, fun q hq _ hocc => ?_⟩
    · rw [strlen_of_nulFree hnul, hlen, hE9]; omega
    · have := hE q hocc; omega
  unfold main_locate
  rw [h1, h2]
  simp only
  rw [if_neg (by omega)]

/-- From offset 10 on, the occurrences of a marker in E b1 X S Y E b2 do not depend on
the byte b1. -/
theorem occursAt_capture_pair (b1 b1' b2 : Nat) (X Y m : List Nat) (p : Nat) (hp : 10 ≤ p)
    (h : occursAt (capture_pair b1' b2 X Y) m p) : occursAt (capture_pair b1 b2 X Y) m p := by
  have hd : ∀ b, (capture_pair b b2 X Y).drop p
      = (X ++ startstring ++ Y ++ endstring ++ [b2]).drop (p - 10) := by
    intro b
    have e : capture_pair b b2 X Y
        = (endstring ++ [b]) ++ (X ++ startstring ++ Y ++ endstring ++ [b2]) := by
      simp [capture_pair, List.append_assoc]
    have hl : (endstring ++ [b]).length = 10 := rfl
    rw [e, List.drop_append_eq_append_drop, hl,
      List.drop_eq_nil_of_le (by rw [hl]; exact hp), List.nil_append]
  unfold occursAt at h ⊢
  rw [hd] at h ⊢
  exact h

set_option maxRecDepth 100000 in
/-- C25, counterexample: in the capture E b1 CR LF S "0xA042" CR LF E Z the markers occur
at the same offsets for b1 = 0x00 and for b1 = 0x41 (S at 12 only, E at 0 and 24 only);
the frame location fails for b1 = 0x00, where the string ends at offset 9, and succeeds
with the offsets 12 and 24 for b1 = 0x41. -/
theorem C25_nul_checksum_byte_hides_frame :
    (∀ p, occursAt (capture_pair 0 0x5a (bytes "\r\n") (bytes "0xA042\r\n")) startstring p →
        p = 12) ∧
      (∀ p, occursAt (capture_pair 0 0x5a (bytes "\r\n") (bytes "0xA042\r\n")) endstring p →
        p = 0 ∨ p = 24) ∧
      (∀ p, occursAt (capture_pair 0x41 0x5a (bytes "\r\n") (bytes "0xA042\r\n"))
        startstring p → p = 12) ∧
      (∀ p, occursAt (capture_pair 0x41 0x5a (bytes "\r\n") (bytes "0xA042\r\n"))
        endstring p → p = 0 ∨ p = 24) ∧
      main_locate (capture_pair 0 0x5a (bytes "\r\n") (bytes "0xA042\r\n")) = none ∧
      (main_locate (capture_pair 0x41 0x5a (bytes "\r\n") (bytes "0xA042\r\n"))).map
        (fun f => (f.startpos, f.endpos)) = some (12, 24) :=
  ⟨forall_occursAt_of_lt _ _ (by decide) (by decide),
    forall_occursAt_of_lt _ _ (by decide) (by decide),
    forall_occursAt_of_lt _ _ (by decide) (by decide),
    forall_occursAt_of_lt _ _ (by decide) (by decide), by decide, by decide⟩

/-- C25, amended: for every NUL-free capture E b1 X S Y E b2 without other marker
occurrences and every byte value b1' other than 0x00, also one that completes a marker
with the bytes around it, the frame location succeeds on the capture with b1 and on the
capture with b1' with the same offsets: the start offset at S and the end offset at the
second E. -/
theorem C25_locate_independent_of_nonzero_byte (b1 b1' b2 : Nat) (X Y : List Nat)
    (hb1 : b1 ≠ 0) (hb1' : b1' ≠ 0) (hnul : nulFree (X ++ Y ++ [b2]))
    (hS : ∀ p, occursAt (capture_pair b1 b2 X Y) startstring p → p = 10 + X.length)
    (hE : ∀ p, occursAt (capture_pair b1 b2 X Y) endstring p →
      p = 0 ∨ p = 14 + X.length + Y.length) :
    (main_locate (capture_pair b1 b2 X Y)).map (fun f => (f.startpos, f.endpos)) =
        some (10 + X.length, 14 + X.length + Y.length) ∧
      (main_locate (capture_pair b1' b2 X Y)).map (fun f => (f.startpos, f.endpos)) =
        (main_locate (capture_pair b1 b2 X Y)).map (fun f => (f.startpos, f.endpos)) := by
  have hfree : ∀ b, b ≠ 0 → nulFree (capture_pair b b2 X Y) := by
    intro b hb c hc
    simp only [capture_pair, List.mem_append, List.mem_cons, List.mem_singleton,
      List.not_mem_nil, or_false] at hc
    rcases hc with ((((((hc | hc) | hc) | hc) | hc) | hc) | hc)
    · exact nulFree_endstring c hc
    · omega
    · exact hnul c (by simp [hc])
    · exact nulFree_startstring c hc
    · exact hnul c (by simp [hc])
    · exact nulFree_endstring c hc
    · exact hnul c (by simp [hc])
  have hS' : ∀ p, occursAt (capture_pair b1' b2 X Y) startstring p → p ≤ 10 + X.length := by
    intro p hp
    by_cases h10 : 10 ≤ p
    · have := hS p (occursAt_capture_pair b1 b1' b2 X Y startstring p h10 hp)
      omega
    · omega
  have hE' : ∀ p, occursAt (capture_pair b1' b2 X Y) endstring p →
      p ≤ 14 + X.length + Y.length := by
    intro p hp
    by_cases h10 : 10 ≤ p
    · rcases hE p (occursAt_capture_pair b1 b1' b2 X Y endstring p h10 hp) with h | h <;> omega
    · omega
  rw [main_locate_pair b1 b2 X Y (hfree b1 hb1) (fun p hp => by have := hS p hp; omega)
      (fun p hp => by rcases hE p hp with h | h <;> omega),
    main_locate_pair b1' b2 X Y (hfree b1' hb1') hS' hE']
  exact ⟨rfl, rfl⟩

set_option maxRecDepth 100000 in
/-- C25 (amended) at the capture E b1 "ID TAB 1 CR LF" S "0xA042 CR LF" E Z with the byte
A for b1 and the byte P for b1': with P the bytes at the offsets 9 to 12 are a further
start marker, and the frame located is the same. -/
theorem C25_locate_independent_of_nonzero_byte_witness :
    occursAt (capture_pair 0x50 0x5a (bytes "ID\t1\r\n") (bytes "0xA042\r\n")) startstring 9 ∧
    (main_locate (capture_pair 0x41 0x5a (bytes "ID\t1\r\n") (bytes "0xA042\r\n"))).map
        (fun f => (f.startpos, f.endpos)) =
        some (10 + (bytes "ID\t1\r\n").length,
          14 + (bytes "ID\t1\r\n").length + (bytes "0xA042\r\n").length) ∧
      (main_locate (capture_pair 0x50 0x5a (bytes "ID\t1\r\n") (bytes "0xA042\r\n"))).map
        (fun f => (f.startpos, f.endpos)) =
        (main_locate (capture_pair 0x41 0x5a (bytes "ID\t1\r\n") (bytes "0xA042\r\n"))).map
          (fun f => (f.startpos, f.endpos)) :=
  ⟨by decide, C25_locate_independent_of_nonzero_byte 0x41 0x50 0x5a (bytes "ID\t1\r\n")
    (bytes "0xA042\r\n") (by decide) (by decide) (by decide)
    (forall_occursAt_of_lt _ _ (by decide) (by decide))
    (forall_occursAt_of_lt _ _ (by decide) (by decide))⟩

set_option maxRecDepth 100000 in
/-- C26, counterexample: the raw product id 0768 is read by strtol with base 0 as the
octal number 076 = 62, not as 768; convert_units maps it to *UNKNOWN*, while the
identifier 768 = 0x0300 has the name BlueSolar MPPT 70/15. The raw string " 0x0300",
which starts with a blank and not with 0x, is read in base 16 as 768, not in base 10. -/
theorem C26_leading_zero_is_octal :
    strtol (bytes "0768") 0 = 62 ∧ strtol (bytes "0768") 10 = 768 ∧
      ((convert_units (set_val bsolar 15 (bytes "0768"))).1 15).val = bytes "*UNKNOWN*" ∧
      pid_name 768 = "BlueSolar MPPT 70/15" ∧
      strtol (bytes " 0x0300") 0 = 768 ∧ strtol (bytes " 0x0300") 10 = 0 := by
  refine ⟨by decide, by decide, ?_, by decide, by decide, by decide⟩
  rw [(convert_units_val _).2, set_val_apply, if_pos rfl]
  rw [show strtol (bytes "0768") 0 = 62 by decide]
  decide

/-- The number that `strtol_digits` forms: the number written by the leading digits. -/
theorem strtol_digits_eq (base : Nat) (s : List Nat) (acc : Nat) :
    strtol_digits base s acc
      = (leading_digits base s).foldl (fun n d => n * base + d) acc := by
  induction s generalizing acc with
  | nil => rfl
  | cons c t ih =>
    unfold strtol_digits
    cases h : digit_in base c with
    | none => simp [leading_digits, h]
    | some d =>
      have e : leading_digits base (c :: t) = d :: leading_digits base t := by
        simp [leading_digits, h]
      rw [e, List.foldl_cons]
      exact ih _

/-- The integer that `strtol` with base 0 takes from a raw string is the product
identifier of the string. -/
theorem strtol_value_eq_pid_number (s : List Nat) : strtol_value s 0 = pid_number s := by
  unfold strtol_value pid_number numeral_body digits_number
  simp only [strtol_digits_eq]
  by_cases h1 : ((cstr s).dropWhile isspace).head? = some 0x2d
  · simp [h1]
  · by_cases h2 : ((cstr s).dropWhile isspace).head? = some 0x2b
    · simp [h2]
    · simp [h1, h2]

set_option maxRecDepth 100000 in
/-- C26, amended: convert_units names the product by the identifier that strtol reads
with base 0 from the raw string. For every raw string this is the number that follows
the leading white space and sign, read in base 16 behind the prefix 0x or 0X, in base 8
behind another leading 0, and in base 10 otherwise, and limited to the range of long.
The raw strings 0x0300, 768 and 01400 give 768 and the name BlueSolar MPPT 70/15; the raw
string 0768 gives 62 and *UNKNOWN*. -/
theorem C26_pid_base_from_prefix (list : Table) (s : List Nat) :
    ((convert_units (set_val list 15 s)).1 15).val = bytes (pid_name (strtol s 0)) ∧
      strtol s 0 =
        (if LONG_MAX < pid_number s then LONG_MAX
         else if pid_number s < LONG_MIN then LONG_MIN else pid_number s) ∧
      (pid_number (bytes "0x0300") = 768 ∧ pid_number (bytes "0XA042") = 0xa042 ∧
        pid_number (bytes "768") = 768 ∧ pid_number (bytes "01400") = 768 ∧
        pid_number (bytes "0768") = 62 ∧ pid_number (bytes " +0x0300") = 768 ∧
        pid_number (bytes "-768") = -768 ∧ pid_number [] = 0) ∧
      ((convert_units (set_val list 15 (bytes "0x0300"))).1 15).val
        = bytes "BlueSolar MPPT 70/15" ∧
      ((convert_units (set_val list 15 (bytes "768"))).1 15).val
        = bytes "BlueSolar MPPT 70/15" ∧
      ((convert_units (set_val list 15 (bytes "01400"))).1 15).val
        = bytes "BlueSolar MPPT 70/15" ∧
      ((convert_units (set_val list 15 (bytes "0768"))).1 15).val = bytes "*UNKNOWN*" := by
  refine ⟨?_, ?_, by decide, ?_, ?_, ?_, ?_⟩
  · rw [(convert_units_val _).2, set_val_apply, if_pos rfl]
  · unfold strtol
    rw [strtol_value_eq_pid_number]
  · rw [(convert_units_val _).2, set_val_apply, if_pos rfl]
    rw [show strtol (bytes "0x0300") 0 = 768 by decide]
    decide
  · rw [(convert_units_val _).2, set_val_apply, if_pos rfl]
    rw [show strtol (bytes "768") 0 = 768 by decide]
    decide
  · rw [(convert_units_val _).2, set_val_apply, if_pos rfl]
    rw [show strtol (bytes "01400") 0 = 768 by decide]
    decide
  · rw [(convert_units_val _).2, set_val_apply, if_pos rfl]
    rw [show strtol (bytes "0768") 0 = 62 by decide]
    decide

set_option maxRecDepth 1000000 in
/-- C27 (fails on the code): on the capture "x PID TAB", 260 bytes A, "Checksum TAB Z" the
frame location succeeds with start offset 1 and end offset 265, and the 256 bytes copied
to blockbuf hold no NUL byte: the copy stops after 256 bytes without a terminator, so the
loop of parse_block, which runs up to the first NUL, reads past blockbuf. -/
theorem C27_block_copy_without_terminator :
    capture_long.length = 275 ∧
      main_locate capture_long = some ⟨1, 265, capture_long⟩ ∧
      (main_block ⟨1, 265, capture_long⟩).length = 256 ∧
      (∀ c ∈ main_block ⟨1, 265, capture_long⟩, c ≠ 0) := by
  decide

/-- C28: on a NUL-free buffer and a non-empty marker strstr_last returns either an offset
p, and then the marker occurs at p, p is at least 1 and the marker occurs at no offset
greater than p, or not-found, and then the marker occurs at no offset from 1 on. The
function returns one of the two for every such input. -/
theorem C28_strstr_last_spec (buf marker : List Nat) (hbuf : nulFree buf)
    (hmarker : nulFree marker) (hne : marker ≠ []) :
    (∃ p, strstr_last buf marker = some p ∧ occursAt buf marker p ∧ 1 ≤ p ∧
        ∀ q, p < q → ¬ occursAt buf marker q) ∨
      (strstr_last buf marker = none ∧ ∀ q, 1 ≤ q → ¬ occursAt buf marker q) := by
  have hbound : ∀ q, occursAt buf marker q → q + marker.length ≤ strlen buf := by
    intro q hq
    rw [strlen_of_nulFree hbuf]
    rcases occursAt_le_length hq with h | h
    · exact h
    · exact absurd h hne
  cases h : strstr_last buf marker with
  | none =>
    right
    rw [strstr_last_none buf marker hmarker hne] at h
    exact ⟨rfl, fun q hq hocc => h q hq (hbound q hocc) hocc⟩
  | some p =>
    left
    rw [strstr_last_some buf marker hmarker hne] at h
    exact ⟨p, rfl, h.2.2.1, h.1, fun q hq hocc => h.2.2.2 q hq (hbound q hocc) hocc⟩

set_option maxRecDepth 100000 in
/-- C28 at the buffer "x PID TAB A PID TAB B" and the start marker. -/
theorem C28_strstr_last_spec_witness :
    (∃ p, strstr_last (bytes "xPID\tAPID\tB") startstring = some p ∧
        occursAt (bytes "xPID\tAPID\tB") startstring p ∧ 1 ≤ p ∧
        ∀ q, p < q → ¬ occursAt (bytes "xPID\tAPID\tB") startstring q) ∨
      (strstr_last (bytes "xPID\tAPID\tB") startstring = none ∧
        ∀ q, 1 ≤ q → ¬ occursAt (bytes "xPID\tAPID\tB") startstring q) :=
  C28_strstr_last_spec (bytes "xPID\tAPID\tB") startstring (by decide) (by decide)
    (by decide)

/-! ## Claim C19: the exit status of main -/

end PiSolar
